import Mathlib

/-!
Verification development for the THALES XML auto-corrector
(`streamlit_app/app.py`, `scripts/sync_thales_orders.py`).

The correction engine (`ThalesXMLCorrector`) is shallowly embedded here:

* XML documents (lxml element trees) become the inductive `XTree`
  (tag, optional text, ordered children).  Attributes are not touched by
  the engine and are omitted from the model.
* The XPath fragment actually used by the rule tables (`//Seg1/Seg2/...`,
  plain element-name steps, absolute descendant paths) is embedded by
  `parseXPath` / `xmatch`: a node matches `//s1/.../sn` exactly when the
  tag chain from the document root down to the node ends with
  `[s1, ..., sn]`, and lxml returns matches in document (pre-order)
  order, which `xmatch` reproduces.  An expression outside the fragment
  models an XPath evaluation error (`parseXPath _ = none`), which the
  Python code observes as a raised exception.
* In-place lxml mutation (`elements[0].text = ...`, `parent.append(...)`)
  becomes functional update at an explicit child-index path
  (`setTextAt`, `appendAt`).
* Python dict values reaching the engine are strings and booleans; a
  `None` value and an absent key are observationally identical for every
  read the engine performs (`dict.get` + truthiness), so both are
  modelled as an absent key.
* `etree.fromstring` is an external boundary: `correct_xml_file` takes
  the parse result (`Option XTree`) next to the raw input text, `none`
  standing for any unparsable input.  `render` models
  `etree.tostring(root, encoding='unicode', pretty_print=True)` on the
  attribute-free, unescaped fragment: empty elements self-close,
  children of text-free elements are indented by two spaces per level,
  and the serialization of the root ends with a newline.
-/

/-- An XML element as the engine sees it: a tag, the `.text` payload of
lxml (absent or a string), and the ordered list of child elements. -/
inductive XTree where
  | node (tag : String) (text : Option String) (children : List XTree)
deriving Repr

/-- Tag of the root element of a tree. -/
def XTree.tag : XTree → String
  | .node t _ _ => t

/-- Text (`.text`) of the root element of a tree. -/
def XTree.text : XTree → Option String
  | .node _ x _ => x

/-- Children of the root element of a tree. -/
def XTree.children : XTree → List XTree
  | .node _ _ c => c

mutual

/-- Boolean equality on trees (structural). -/
def XTree.beq : XTree → XTree → Bool
  | .node t1 x1 c1, .node t2 x2 c2 =>
    t1 == t2 && x1 == x2 && XTree.beqList c1 c2

/-- Boolean equality on lists of trees. -/
def XTree.beqList : List XTree → List XTree → Bool
  | [], [] => true
  | [], _ :: _ => false
  | _ :: _, [] => false
  | a :: as, b :: bs => XTree.beq a b && XTree.beqList as bs

end

/-- Induction over `XTree` that hands the hypothesis to every child. -/
theorem XTree.inductionOn {P : XTree → Prop}
    (h : ∀ tag text children, (∀ c ∈ children, P c) → P (XTree.node tag text children)) :
    ∀ t, P t
  | .node tag text children =>
    h tag text children (fun c hc =>
      XTree.inductionOn h c)
termination_by t => sizeOf t
decreasing_by
  simp only [XTree.node.sizeOf_spec]
  have := List.sizeOf_lt_of_mem hc
  omega

theorem XTree.beq_refl : ∀ t : XTree, XTree.beq t t = true := by
  intro t
  induction t using XTree.inductionOn with
  | h tag text children ih =>
    rw [XTree.beq]
    simp only [Bool.and_eq_true, beq_self_eq_true, true_and]
    induction children with
    | nil => rfl
    | cons c cs ihl =>
      rw [XTree.beqList]
      simp only [Bool.and_eq_true]
      exact ⟨ih c (by simp), ihl (fun c hc => ih c (by simp [hc]))⟩

mutual

theorem XTree.eq_of_beq : ∀ {t u : XTree}, XTree.beq t u = true → t = u
  | .node t1 x1 c1, .node t2 x2 c2, h => by
    rw [XTree.beq] at h
    simp only [Bool.and_eq_true, beq_iff_eq] at h
    obtain ⟨⟨h1, h2⟩, h3⟩ := h
    subst h1; subst h2
    rw [XTree.eqList_of_beqList h3]

theorem XTree.eqList_of_beqList : ∀ {cs ds : List XTree},
    XTree.beqList cs ds = true → cs = ds
  | [], [], _ => rfl
  | [], _ :: _, h => by rw [XTree.beqList] at h; exact absurd h Bool.false_ne_true
  | _ :: _, [], h => by rw [XTree.beqList] at h; exact absurd h Bool.false_ne_true
  | a :: as, b :: bs, h => by
    rw [XTree.beqList] at h
    simp only [Bool.and_eq_true] at h
    rw [XTree.eq_of_beq h.1, XTree.eqList_of_beqList h.2]

end

instance : DecidableEq XTree := fun t u =>
  if h : XTree.beq t u = true then
    isTrue (XTree.eq_of_beq h)
  else
    isFalse (fun he => h (he ▸ XTree.beq_refl t))

/-- A Python value as stored in the fact dictionaries the engine reads:
only strings and booleans reach the engine's lookups (a `None` value is
indistinguishable from an absent key for the engine and is modelled as
key absence). -/
inductive PyVal where
  | str (s : String)
  | bool (b : Bool)
deriving Repr, DecidableEq

/-- A Python dict from string keys to values, as an association list. -/
abbrev Dict := List (String × PyVal)

/-- Model of `d.get(k)` on a Python dict (first binding wins, `None` if absent). -/
def dictGet (d : Dict) (k : String) : Option PyVal :=
  (d.find? (fun kv => kv.1 == k)).map (fun kv => kv.2)

/-- Python truthiness of a value: `bool("") = False`,
`bool(s) = True` for nonempty `s`, booleans are themselves. -/
def truthyV : PyVal → Bool
  | .str s => !(s == "")
  | .bool b => b

/-- Python truthiness of a possibly-missing value (`None` is falsy). -/
def truthy : Option PyVal → Bool
  | Option.none => false
  | some v => truthyV v

/-- Python `str(value)` for the values the engine injects. -/
def pyStr : PyVal → String
  | .str s => s
  | .bool b => if b then "True" else "False"

/-- One correction rule, the dict shape of `_get_thales_xml_rules` /
`get_thales_xml_rules`.  `position` is present only in the sync-script
table and is never read by the engine. -/
structure Rule where
  name : String
  description : String := ""
  xpath : String
  source_field : String
  action : String := "create_or_update"
  condition : Option String := Option.none
  parent_xpath : Option String := Option.none
  position : Option String := Option.none
  group : String := ""
deriving Repr, DecidableEq

/-- Split a character list on a separator, the semantics of Python's
`str.split(sep)`: `n` separators yield `n + 1` (possibly empty)
pieces. -/
def splitOnChar (sep : Char) : List Char → List (List Char)
  | [] => [[]]
  | c :: cs =>
    match splitOnChar sep cs with
    | [] => [[c]]
    | h :: t => if c == sep then [] :: h :: t else (c :: h) :: t

theorem splitOnChar_ne_nil (sep : Char) (l : List Char) :
    splitOnChar sep l ≠ [] := by
  cases l with
  | nil => simp [splitOnChar]
  | cons c cs =>
    rw [splitOnChar]
    rcases h : splitOnChar sep cs with _ | ⟨h', t⟩
    · simp
    · by_cases hc : c == sep <;> simp [hc]

/-- A single step name in the XPath fragment used by the rule tables:
a nonempty run of letters, digits or underscores. -/
def validSeg (l : List Char) : Bool :=
  !(l.isEmpty) && l.all (fun c => c.isAlphanum || c == '_')

/-- Parse an XPath expression of the fragment the rule tables use:
`//seg1/seg2/.../segn`.  `none` models an expression the evaluator
rejects (lxml raises `XPathEvalError`), e.g. `"///"`. -/
def parseXPath (s : String) : Option (List String) :=
  match s.toList with
  | '/' :: '/' :: rest =>
    let pieces := splitOnChar '/' rest
    if pieces.all validSeg then some (pieces.map (fun l => String.mk l))
    else Option.none
  | _ => Option.none

theorem parseXPath_ne_nil {s : String} {segs : List String}
    (h : parseXPath s = some segs) : segs ≠ [] := by
  unfold parseXPath at h
  split at h
  case h_2 => exact absurd h (by simp)
  case h_1 rest _ =>
    simp only [] at h
    split at h
    · intro he
      rw [← Option.some_inj.mp h] at he
      exact splitOnChar_ne_nil '/' rest (List.map_eq_nil_iff.mp he)
    · exact absurd h (by simp)

mutual

/-- Paths (child-index lists, relative to `p`) of the nodes of `t` that
match the selector `segs` (the parsed form of `//s1/.../sn`), listed in
document (pre-order) order.  `anc` is the chain of ancestor tags above
`t`; a node matches exactly when `segs` is a suffix of the tag chain
from the document root down to the node, which is the lxml semantics of
`//s1/.../sn` for plain element-name steps. -/
def xmatch (segs : List String) (anc : List String) (p : List Nat) :
    XTree → List (List Nat)
  | .node tag _ children =>
    (if segs.isSuffixOf (anc ++ [tag]) then [p] else []) ++
      xmatchList segs (anc ++ [tag]) p 0 children

/-- The function `xmatch` over a list of siblings, the `i`-th sibling having path
`p ++ [j + i]`. -/
def xmatchList (segs : List String) (anc : List String) (p : List Nat)
    (j : Nat) : List XTree → List (List Nat)
  | [] => []
  | c :: cs =>
    xmatch segs anc (p ++ [j]) c ++ xmatchList segs anc p (j + 1) cs

end

/-- Document-order matches of a parsed selector against a whole
document, as paths from the root: the model of `root.xpath("//...")`. -/
def xpathPaths (t : XTree) (segs : List String) : List (List Nat) :=
  xmatch segs [] [] t

/-- Node at a child-index path, if the path is valid. -/
def getAt : List Nat → XTree → Option XTree
  | [], t => some t
  | i :: q, .node _ _ cs =>
    match cs[i]? with
    | some c => getAt q c
    | Option.none => Option.none

/-- Tag chain (root tag included) along a child-index path. -/
def chainAt : List Nat → XTree → Option (List String)
  | [], .node tag _ _ => some [tag]
  | i :: q, .node tag _ cs =>
    match cs[i]? with
    | some c => (chainAt q c).map (fun ch => tag :: ch)
    | Option.none => Option.none

/-- Text (`.text`) of the node at a path, if the path is valid. -/
def textAt (q : List Nat) (t : XTree) : Option (Option String) :=
  (getAt q t).map XTree.text

/-- Number of children of the node at a path, if the path is valid. -/
def childCountAt (q : List Nat) (t : XTree) : Option Nat :=
  (getAt q t).map (fun n => n.children.length)

/-- Functional model of `elements[0].text = str(value)`: replace the
text of the node at path `q` (the tree is returned unchanged when the
path is invalid, which never happens for paths produced by `xmatch`). -/
def setTextAt (v : String) : List Nat → XTree → XTree
  | [], .node tag _ cs => .node tag (some v) cs
  | i :: q, .node tag tx cs =>
    match cs[i]? with
    | some c => .node tag tx (cs.set i (setTextAt v q c))
    | Option.none => .node tag tx cs

/-- Functional model of `parent.append(new_element)`: append `c` as the
last child of the node at path `q`. -/
def appendAt (c : XTree) : List Nat → XTree → XTree
  | [], .node tag tx cs => .node tag tx (cs ++ [c])
  | i :: q, .node tag tx cs =>
    match cs[i]? with
    | some x => .node tag tx (cs.set i (appendAt c q x))
    | Option.none => .node tag tx cs

/-- Model of `xpath.split('/')[-1]`: the element name used for creation is the
final `/`-separated piece of the rule's target locator. -/
def lastSegment (s : String) : String :=
  String.mk ((splitOnChar '/' s.toList).getLastD [])

/-- Model of `ThalesXMLCorrector._map_field_name`: maps rule field names to the
keys of the extracted THALES data. -/
def map_field_name (f : String) : String :=
  if f = "order_id" then "numeroCommande"
  else if f = "emploi_cc" then "emploiCC"
  else if f = "categorie_socio" then "categorieSocio"
  else if f = "classement_cc" then "classementCC"
  else if f = "centre_analyse" then "centreAnalyse"
  else if f = "centre_analyse_prefix" then "centreAnalysePrefix"
  else f

/-- The value a rule reads from the fact dict:
`thales_data.get(self._map_field_name(rule['source_field']))`. -/
def ruleValue (r : Rule) (data : Dict) : Option PyVal :=
  dictGet data (map_field_name r.source_field)

/-- Model of `ThalesXMLCorrector._should_apply_rule`.  The only condition the
code knows is `'site_not_gemenos'`, answered by the `siteNotGemenos`
flag (default `False`); any other condition string falls through to the
source-field truthiness check, as does the no-condition case. -/
def should_apply_rule (r : Rule) (data : Dict) : Bool :=
  match r.condition with
  | some c =>
    if c = "site_not_gemenos" then truthy (dictGet data "siteNotGemenos")
    else truthy (ruleValue r data)
  | Option.none => truthy (ruleValue r data)

/-- True exactly when `_should_apply_rule` returns `False` from its
condition branch (the `Skipped-Condition` path of the spec). -/
def blockedByCondition (r : Rule) (data : Dict) : Bool :=
  match r.condition with
  | some c => c = "site_not_gemenos" && !truthy (dictGet data "siteNotGemenos")
  | Option.none => false

/-- The distinguishable control-flow exits of one rule execution.  The
first two are the two `False` returns before any document access; the
rest tag the paths through `_apply_xml_rule` / `_create_xml_element`:
`updated` (target found, text overwritten), `created` (target missing,
parent found, child appended), `noParent` (target missing, parent
locator matched nothing — silent `return` in `_create_xml_element`),
`noParentXpath` (target missing, rule has no `parent_xpath` — silent
`return`), `parentMalformed` (parent locator raised, swallowed inside
`_create_xml_element`), `failed` (target locator raised inside
`_apply_xml_rule`, caught there, `return False`). -/
inductive Outcome where
  | skippedCondition
  | skippedNoValue
  | updated (v : String)
  | created (v : String)
  | noParentXpath
  | parentMalformed
  | noParent
  | failed
deriving Repr, DecidableEq

/-- The boolean `_apply_xml_rule` hands back to `correct_xml_file`:
`True` on `updated`/`created` but also on every silent exit of
`_create_xml_element`; `False` only for the value check and for an
exception inside `_apply_xml_rule` itself. -/
def successOf : Outcome → Bool
  | .updated _ => true
  | .created _ => true
  | .noParentXpath => true
  | .parentMalformed => true
  | .noParent => true
  | .skippedCondition => false
  | .skippedNoValue => false
  | .failed => false

/-- Model of `ThalesXMLCorrector._create_xml_element`: resolve `parent_xpath`
(silently giving up when it is absent, malformed, or matches nothing)
and append a fresh leaf named after the last path piece of the rule's
`xpath`, carrying `str(value)` as text, to the first parent match. -/
def create_xml_element (root : XTree) (r : Rule) (v : String) :
    XTree × Outcome :=
  match r.parent_xpath with
  | Option.none => (root, .noParentXpath)
  | some ps =>
    match parseXPath ps with
    | Option.none => (root, .parentMalformed)
    | some psegs =>
      match xpathPaths root psegs with
      | [] => (root, .noParent)
      | pp :: _ =>
        (appendAt (XTree.node (lastSegment r.xpath) (some v) []) pp root,
          .created v)

/-- Model of `ThalesXMLCorrector._apply_xml_rule`: re-check the value, evaluate
the target locator (an evaluation error is the `failed` exit), mutate
the first match's text if any node matched, otherwise delegate to
`_create_xml_element`. -/
def apply_xml_rule (root : XTree) (r : Rule) (data : Dict) :
    XTree × Outcome :=
  match ruleValue r data with
  | Option.none => (root, .skippedNoValue)
  | some pv =>
    if truthyV pv then
      match parseXPath r.xpath with
      | Option.none => (root, .failed)
      | some segs =>
        match xpathPaths root segs with
        | [] => create_xml_element root r (pyStr pv)
        | q :: _ => (setTextAt (pyStr pv) q root, .updated (pyStr pv))
    else (root, .skippedNoValue)

/-- One iteration of the rule loop of `correct_xml_file`: gate on
`_should_apply_rule`, then run `_apply_xml_rule`.  The outcome tags the
control path taken; a gated-out rule leaves the document untouched. -/
def run_rule (root : XTree) (r : Rule) (data : Dict) : XTree × Outcome :=
  if should_apply_rule r data then apply_xml_rule root r data
  else
    (root, if blockedByCondition r data then .skippedCondition
           else .skippedNoValue)

/-- The rule loop of `correct_xml_file`: rules in order, each seeing the
document as left by its predecessors; the trace pairs each rule name
with the path its execution took. -/
def run_rules (data : Dict) : XTree → List Rule →
    XTree × List (String × Outcome)
  | root, [] => (root, [])
  | root, r :: rs =>
    let step := run_rule root r data
    let rest := run_rules data step.1 rs
    (rest.1, (r.name, step.2) :: rest.2)

/-- Model of `corrections_applied`: the names of the rules for which
`_apply_xml_rule` returned `True`, in rule order. -/
def corrections_applied (trace : List (String × Outcome)) : List String :=
  (trace.filter (fun x => successOf x.2)).map (fun x => x.1)

/-- Model of `ThalesXMLCorrector._get_thales_xml_rules`: the built-in THALES rule
table compiled into the engine (`app.py`; no `position` entries). -/
def xml_rules : List Rule :=
  [ { name := "numero_commande"
    , description := "Numéro de commande dans OrderId/IdValue"
    , xpath := "//ReferenceInformation/OrderId/IdValue"
    , source_field := "order_id"
    , action := "create_or_update"
    , parent_xpath := some "//ReferenceInformation/OrderId"
    , group := "ReferenceInformation" }
  , { name := "emploi_cc_position_code"
    , description := "EMPLOI CC dans PositionStatus/Code"
    , xpath := "//PositionCharacteristics/PositionStatus/Code"
    , source_field := "emploi_cc"
    , action := "create_or_update"
    , parent_xpath := some "//PositionCharacteristics/PositionStatus"
    , group := "PositionCharacteristics" }
  , { name := "categorie_socio_position_level"
    , description := "Catégorie socio-professionnelle dans PositionLevel"
    , xpath := "//PositionCharacteristics/PositionLevel"
    , source_field := "categorie_socio"
    , action := "create_or_update"
    , parent_xpath := some "//PositionCharacteristics"
    , group := "PositionCharacteristics" }
  , { name := "classement_cc_coefficient"
    , description := "Classement CC dans PositionCoefficient"
    , xpath := "//PositionCharacteristics/PositionCoefficient"
    , source_field := "classement_cc"
    , action := "create_or_update"
    , parent_xpath := some "//PositionCharacteristics"
    , group := "PositionCharacteristics" }
  , { name := "centre_analyse_cost_center_name"
    , description := "Centre d'analyse complet dans CostCenterName"
    , xpath := "//CustomerReportingRequirements/CostCenterName"
    , source_field := "centre_analyse"
    , action := "create_or_update"
    , parent_xpath := some "//CustomerReportingRequirements"
    , group := "CustomerReportingRequirements" }
  , { name := "centre_analyse_department_code"
    , description := "Préfixe centre d'analyse dans DepartmentCode"
    , xpath := "//CustomerReportingRequirements/DepartmentCode"
    , source_field := "centre_analyse_prefix"
    , action := "create_or_update"
    , parent_xpath := some "//CustomerReportingRequirements"
    , group := "CustomerReportingRequirements" }
  , { name := "centre_analyse_cost_center_code"
    , description := "Préfixe centre d'analyse dans CostCenterCode"
    , xpath := "//CustomerReportingRequirements/CostCenterCode"
    , source_field := "centre_analyse_prefix"
    , action := "create_or_update"
    , parent_xpath := some "//CustomerReportingRequirements"
    , group := "CustomerReportingRequirements" }
  , { name := "worksite_conditional"
    , description := "Centre d'analyse dans WorkSiteName si site ≠ GEMENOS"
    , xpath := "//WorkSite/WorkSiteName"
    , source_field := "centre_analyse"
    , action := "create_or_update"
    , condition := some "site_not_gemenos"
    , parent_xpath := some "//WorkSite"
    , group := "ContractInformation" } ]

/-- Model of `get_thales_xml_rules` of `scripts/sync_thales_orders.py`: the same
table with advisory `position` hints attached. -/
def sync_xml_rules : List Rule :=
  [ { name := "numero_commande"
    , description := "Numéro de commande dans OrderId/IdValue"
    , xpath := "//ReferenceInformation/OrderId/IdValue"
    , source_field := "order_id"
    , action := "create_or_update"
    , parent_xpath := some "//ReferenceInformation/OrderId"
    , position := some "before_siblings"
    , group := "ReferenceInformation" }
  , { name := "emploi_cc_position_code"
    , description := "EMPLOI CC dans PositionStatus/Code"
    , xpath := "//PositionCharacteristics/PositionStatus/Code"
    , source_field := "emploi_cc"
    , action := "create_or_update"
    , parent_xpath := some "//PositionCharacteristics/PositionStatus"
    , position := some "first_child"
    , group := "PositionCharacteristics" }
  , { name := "categorie_socio_position_level"
    , description := "Catégorie socio-professionnelle dans PositionLevel"
    , xpath := "//PositionCharacteristics/PositionLevel"
    , source_field := "categorie_socio"
    , action := "create_or_update"
    , parent_xpath := some "//PositionCharacteristics"
    , position := some "after_position_status"
    , group := "PositionCharacteristics" }
  , { name := "classement_cc_coefficient"
    , description := "Classement CC dans PositionCoefficient"
    , xpath := "//PositionCharacteristics/PositionCoefficient"
    , source_field := "classement_cc"
    , action := "create_or_update"
    , parent_xpath := some "//PositionCharacteristics"
    , position := some "after_position_level"
    , group := "PositionCharacteristics" }
  , { name := "centre_analyse_cost_center_name"
    , description := "Centre d'analyse complet dans CostCenterName"
    , xpath := "//CustomerReportingRequirements/CostCenterName"
    , source_field := "centre_analyse"
    , action := "create_or_update"
    , parent_xpath := some "//CustomerReportingRequirements"
    , position := some "after_cost_center_code"
    , group := "CustomerReportingRequirements" }
  , { name := "centre_analyse_department_code"
    , description := "Préfixe centre d'analyse dans DepartmentCode"
    , xpath := "//CustomerReportingRequirements/DepartmentCode"
    , source_field := "centre_analyse_prefix"
    , action := "create_or_update"
    , parent_xpath := some "//CustomerReportingRequirements"
    , position := some "beginning"
    , group := "CustomerReportingRequirements" }
  , { name := "centre_analyse_cost_center_code"
    , description := "Préfixe centre d'analyse dans CostCenterCode"
    , xpath := "//CustomerReportingRequirements/CostCenterCode"
    , source_field := "centre_analyse_prefix"
    , action := "create_or_update"
    , parent_xpath := some "//CustomerReportingRequirements"
    , position := some "after_department_code"
    , group := "CustomerReportingRequirements" }
  , { name := "worksite_conditional"
    , description := "Centre d'analyse dans WorkSiteName si site ≠ GEMENOS"
    , xpath := "//WorkSite/WorkSiteName"
    , source_field := "centre_analyse"
    , action := "create_or_update"
    , condition := some "site_not_gemenos"
    , parent_xpath := some "//WorkSite"
    , position := some "after_environment_id"
    , group := "ContractInformation" } ]

mutual

/-- Serialization of one element, the model of lxml
`etree.tostring(..., encoding='unicode', pretty_print=True)` on the
attribute-free unescaped fragment: an element without text or children
self-closes, children of a text-free element are each on their own line
indented two further spaces, mixed content is emitted inline. -/
def renderElem (ind : Nat) : XTree → String
  | .node tag tx cs =>
    let pad := String.mk (List.replicate (2 * ind) ' ')
    match tx, cs with
    | Option.none, [] => pad ++ "<" ++ tag ++ "/>\n"
    | some s, [] => pad ++ "<" ++ tag ++ ">" ++ s ++ "</" ++ tag ++ ">\n"
    | Option.none, c :: cs' =>
      pad ++ "<" ++ tag ++ ">\n" ++ renderChildren (ind + 1) (c :: cs') ++
        pad ++ "</" ++ tag ++ ">\n"
    | some s, c :: cs' =>
      pad ++ "<" ++ tag ++ ">" ++ s ++ renderInline (c :: cs') ++
        "</" ++ tag ++ ">\n"

/-- Pretty-printed children, one per line. -/
def renderChildren (ind : Nat) : List XTree → String
  | [] => ""
  | c :: cs => renderElem ind c ++ renderChildren ind cs

/-- Un-indented serialization used inside mixed content. -/
def renderInline : List XTree → String
  | [] => ""
  | .node tag tx cs :: rest =>
    (match tx, cs with
     | Option.none, [] => "<" ++ tag ++ "/>"
     | some s, [] => "<" ++ tag ++ ">" ++ s ++ "</" ++ tag ++ ">"
     | Option.none, c :: cs' =>
       "<" ++ tag ++ ">" ++ renderInline (c :: cs') ++ "</" ++ tag ++ ">"
     | some s, c :: cs' =>
       "<" ++ tag ++ ">" ++ s ++ renderInline (c :: cs') ++ "</" ++ tag ++ ">")
      ++ renderInline rest

end

/-- Model of `etree.tostring(root, encoding='unicode', pretty_print=True)`. -/
def render (t : XTree) : String := renderElem 0 t

/-- Model of `ThalesXMLCorrector.correct_xml_file`.  The lxml parse of
`xml_content` is an external boundary and is passed in as `parsed`
(`none` models any input `etree.fromstring` rejects).  On a parse
failure the `except` block reports the error to the UI and returns the
ORIGINAL text together with an empty applied-rules list; otherwise every
rule of `rules` runs in order and the mutated tree is re-serialized
pretty-printed. -/
def correct_xml_file (xml_content : String) (parsed : Option XTree)
    (data : Dict) (rules : List Rule) : String × List String :=
  match parsed with
  | Option.none => (xml_content, [])
  | some root =>
    let run := run_rules data root rules
    (render run.1, corrections_applied run.2)

/-- Python's `in` on strings: `pat` occurs as a contiguous run of `l`. -/
def containsSub (pat : List Char) : List Char → Bool
  | [] => pat.isEmpty
  | c :: rest => pat.isPrefixOf (c :: rest) || containsSub pat rest

/-- The derived flag shared by `ThalesEmailParser.parse_html_email`
(`"GEMENOS" not in extracted_data.get("siteMission", "").upper()`) and
`convert_thales_data_to_dict`
(`"GEMENOS" not in commande.get("site_mission", "").upper()`): true
exactly when the upper-cased site string does not contain `GEMENOS`. -/
def site_not_gemenos (site_mission : String) : Bool :=
  !(containsSub ("GEMENOS".toList) (site_mission.toList.map Char.toUpper))

/-! ### Structural lemmas about path-indexed tree operations -/

theorem getAt_cons_some {i : Nat} {q : List Nat} {tg : String}
    {tx : Option String} {cs : List XTree} {x : XTree}
    (hx : cs[i]? = some x) :
    getAt (i :: q) (XTree.node tg tx cs) = getAt q x := by
  rw [getAt, hx]

theorem getAt_cons_none {i : Nat} {q : List Nat} {tg : String}
    {tx : Option String} {cs : List XTree}
    (hx : cs[i]? = Option.none) :
    getAt (i :: q) (XTree.node tg tx cs) = Option.none := by
  rw [getAt, hx]

theorem appendAt_cons_some {i : Nat} {q : List Nat} {tg : String}
    {tx : Option String} {cs : List XTree} {x : XTree} (c : XTree)
    (hx : cs[i]? = some x) :
    appendAt c (i :: q) (XTree.node tg tx cs) =
      XTree.node tg tx (cs.set i (appendAt c q x)) := by
  rw [appendAt, hx]

theorem appendAt_cons_none {i : Nat} {q : List Nat} {tg : String}
    {tx : Option String} {cs : List XTree} (c : XTree)
    (hx : cs[i]? = Option.none) :
    appendAt c (i :: q) (XTree.node tg tx cs) = XTree.node tg tx cs := by
  rw [appendAt, hx]

theorem setTextAt_cons_some {i : Nat} {q : List Nat} {tg : String}
    {tx : Option String} {cs : List XTree} {x : XTree} (v : String)
    (hx : cs[i]? = some x) :
    setTextAt v (i :: q) (XTree.node tg tx cs) =
      XTree.node tg tx (cs.set i (setTextAt v q x)) := by
  rw [setTextAt, hx]

theorem setTextAt_cons_none {i : Nat} {q : List Nat} {tg : String}
    {tx : Option String} {cs : List XTree} (v : String)
    (hx : cs[i]? = Option.none) :
    setTextAt v (i :: q) (XTree.node tg tx cs) = XTree.node tg tx cs := by
  rw [setTextAt, hx]

theorem chainAt_cons_some {i : Nat} {q : List Nat} {tg : String}
    {tx : Option String} {cs : List XTree} {x : XTree}
    (hx : cs[i]? = some x) :
    chainAt (i :: q) (XTree.node tg tx cs) =
      (chainAt q x).map (fun ch => tg :: ch) := by
  rw [chainAt, hx]

theorem chainAt_cons_none {i : Nat} {q : List Nat} {tg : String}
    {tx : Option String} {cs : List XTree}
    (hx : cs[i]? = Option.none) :
    chainAt (i :: q) (XTree.node tg tx cs) = Option.none := by
  rw [chainAt, hx]

theorem getAt_appendAt_new {q : List Nat} {t n : XTree} (c : XTree)
    (h : getAt q t = some n) :
    getAt (q ++ [n.children.length]) (appendAt c q t) = some c := by
  induction q generalizing t with
  | nil =>
    cases t with
    | node tg tx cs =>
      rw [getAt] at h
      cases h
      rw [List.nil_append, appendAt, XTree.children,
        getAt_cons_some (x := c) (by simp), getAt]
  | cons i q ih =>
    cases t with
    | node tg tx cs =>
      cases hx : cs[i]? with
      | none => rw [getAt_cons_none hx] at h; exact absurd h (by simp)
      | some x =>
        rw [getAt_cons_some hx] at h
        have hi : i < cs.length := (List.getElem?_eq_some_iff.mp hx).1
        rw [List.cons_append, appendAt_cons_some c hx,
          getAt_cons_some (List.getElem?_set_self hi)]
        exact ih h

/-- The operation `appendAt` keeps every node that existed before (same tag and
text); the appended-to node gains exactly `c` at the end of its
children, every other node keeps its child count. -/
theorem getAt_appendAt_preserved {q' : List Nat} {t m : XTree}
    (c : XTree) (q : List Nat) (h : getAt q' t = some m) :
    ∃ m', getAt q' (appendAt c q t) = some m' ∧ m'.tag = m.tag ∧
      m'.text = m.text ∧
      (q' = q → m'.children = m.children ++ [c]) ∧
      (q' ≠ q → m'.children.length = m.children.length) := by
  induction q' generalizing t q with
  | nil =>
    cases t with
    | node tg tx cs =>
      rw [getAt] at h
      cases h
      cases q with
      | nil =>
        rw [appendAt]
        exact ⟨_, rfl, rfl, rfl, fun _ => rfl, fun hne => absurd rfl hne⟩
      | cons i qr =>
        cases hx : cs[i]? with
        | none =>
          rw [appendAt_cons_none c hx]
          exact ⟨_, rfl, rfl, rfl, fun he => absurd he (by simp),
            fun _ => rfl⟩
        | some x =>
          rw [appendAt_cons_some c hx]
          exact ⟨_, rfl, rfl, rfl, fun he => absurd he (by simp),
            fun _ => by simp [XTree.children]⟩
  | cons i' qr' ih =>
    cases t with
    | node tg tx cs =>
      cases hx' : cs[i']? with
      | none => rw [getAt_cons_none hx'] at h; exact absurd h (by simp)
      | some x' =>
        rw [getAt_cons_some hx'] at h
        have hi' : i' < cs.length := (List.getElem?_eq_some_iff.mp hx').1
        cases q with
        | nil =>
          rw [appendAt]
          refine ⟨m, ?_, rfl, rfl, fun he => absurd he (by simp),
            fun _ => rfl⟩
          rw [getAt_cons_some (x := x') (by rw [List.getElem?_append_left hi']; exact hx'), h]
        | cons i qr =>
          cases hx : cs[i]? with
          | none =>
            rw [appendAt_cons_none c hx]
            exact ⟨m, by rw [getAt_cons_some hx', h], rfl, rfl,
              fun he => by
                cases he; rw [hx'] at hx; exact absurd hx (by simp),
              fun _ => rfl⟩
          | some x =>
            by_cases hii : i' = i
            · subst hii
              rw [hx'] at hx
              cases hx
              obtain ⟨m', hm', htag, htext, heq, hne⟩ := ih qr h
              refine ⟨m', ?_, htag, htext,
                fun he => heq (by simpa using he),
                fun hne' => hne (by simpa using hne')⟩
              rw [appendAt_cons_some c hx',
                getAt_cons_some (List.getElem?_set_self hi'), hm']
            · refine ⟨m, ?_, rfl, rfl,
                fun he => absurd he (by simp [hii]), fun _ => rfl⟩
              rw [appendAt_cons_some c hx,
                getAt_cons_some (x := x') (by rw [List.getElem?_set_ne (by omega)]; exact hx'), h]

/-- The operation `setTextAt` keeps every node (same tag, same children); only the
text at the written path changes. -/
theorem getAt_setTextAt_preserved {q' : List Nat} {t m : XTree}
    (v : String) (q : List Nat) (h : getAt q' t = some m) :
    ∃ m', getAt q' (setTextAt v q t) = some m' ∧ m'.tag = m.tag ∧
      m'.children.length = m.children.length ∧
      m'.text = (if q' = q then some v else m.text) := by
  induction q' generalizing t q with
  | nil =>
    cases t with
    | node tg tx cs =>
      rw [getAt] at h
      cases h
      cases q with
      | nil =>
        rw [setTextAt]
        exact ⟨_, rfl, rfl, rfl, by simp [XTree.text]⟩
      | cons i qr =>
        cases hx : cs[i]? with
        | none =>
          rw [setTextAt_cons_none v hx]
          exact ⟨_, rfl, rfl, rfl, by simp [XTree.text]⟩
        | some x =>
          rw [setTextAt_cons_some v hx]
          exact ⟨_, rfl, rfl, by simp [XTree.children], by simp [XTree.text]⟩
  | cons i' qr' ih =>
    cases t with
    | node tg tx cs =>
      cases hx' : cs[i']? with
      | none => rw [getAt_cons_none hx'] at h; exact absurd h (by simp)
      | some x' =>
        rw [getAt_cons_some hx'] at h
        have hi' : i' < cs.length := (List.getElem?_eq_some_iff.mp hx').1
        cases q with
        | nil =>
          rw [setTextAt]
          exact ⟨m, by rw [getAt_cons_some hx', h], rfl, rfl, by simp⟩
        | cons i qr =>
          cases hx : cs[i]? with
          | none =>
            rw [setTextAt_cons_none v hx]
            refine ⟨m, by rw [getAt_cons_some hx', h], rfl, rfl, ?_⟩
            rw [if_neg (fun he => by
              cases he; rw [hx'] at hx; exact absurd hx (by simp))]
          | some x =>
            by_cases hii : i' = i
            · subst hii
              rw [hx'] at hx
              cases hx
              obtain ⟨m', hm', htag, hch, htext⟩ := ih qr h
              refine ⟨m', ?_, htag, hch, ?_⟩
              · rw [setTextAt_cons_some v hx',
                  getAt_cons_some (List.getElem?_set_self hi'), hm']
              · rw [htext]
                by_cases hqq : qr' = qr
                · simp [hqq]
                · simp [hqq]
            · refine ⟨m, ?_, rfl, rfl,
                by rw [if_neg (by simp [hii])]⟩
              rw [setTextAt_cons_some v hx,
                getAt_cons_some (x := x') (by rw [List.getElem?_set_ne (by omega)]; exact hx'), h]

theorem set_self_of_getElem? {α : Type} {l : List α} {i : Nat} {a : α}
    (h : l[i]? = some a) : l.set i a = l := by
  induction l generalizing i with
  | nil => simp at h
  | cons b bs ih =>
    cases i with
    | zero => simp at h; simp [h]
    | succ j => simp at h; simp [List.set_cons_succ, ih h]

/-- Writing the text a node already carries is the identity. -/
theorem setTextAt_id {q : List Nat} {t m : XTree} {v : String}
    (h : getAt q t = some m) (hv : m.text = some v) :
    setTextAt v q t = t := by
  induction q generalizing t with
  | nil =>
    cases t with
    | node tg tx cs =>
      rw [getAt] at h
      cases h
      rw [XTree.text] at hv
      rw [setTextAt, hv]
  | cons i q ih =>
    cases t with
    | node tg tx cs =>
      cases hx : cs[i]? with
      | none => rw [getAt_cons_none hx] at h; exact absurd h (by simp)
      | some x =>
        rw [getAt_cons_some hx] at h
        rw [setTextAt_cons_some v hx, ih h, set_self_of_getElem? hx]

/-! ### Lemmas about selector matching -/

theorem xmatch_node (segs anc : List String) (p : List Nat)
    (tg : String) (tx : Option String) (cs : List XTree) :
    xmatch segs anc p (XTree.node tg tx cs) =
      (if segs.isSuffixOf (anc ++ [tg]) then [p] else []) ++
        xmatchList segs (anc ++ [tg]) p 0 cs := by
  rw [xmatch]

theorem xmatchList_nil (segs anc : List String) (p : List Nat) (j : Nat) :
    xmatchList segs anc p j [] = [] := by
  rw [xmatchList]

theorem xmatchList_cons (segs anc : List String) (p : List Nat) (j : Nat)
    (c : XTree) (cs : List XTree) :
    xmatchList segs anc p j (c :: cs) =
      xmatch segs anc (p ++ [j]) c ++ xmatchList segs anc p (j + 1) cs := by
  rw [xmatchList]

theorem xmatchList_append (segs anc : List String) (p : List Nat) :
    ∀ (l l' : List XTree) (j : Nat),
      xmatchList segs anc p j (l ++ l') =
        xmatchList segs anc p j l ++
          xmatchList segs anc p (j + l.length) l' := by
  intro l
  induction l with
  | nil => intro l' j; simp [xmatchList_nil]
  | cons d ds ih =>
    intro l' j
    rw [List.cons_append, xmatchList_cons, ih l' (j + 1), xmatchList_cons]
    rw [List.append_assoc]
    have : j + 1 + ds.length = j + (ds.length + 1) := by omega
    rw [this, List.length_cons]

theorem xmatchList_split (segs anc : List String) (p : List Nat)
    {cs : List XTree} {i : Nat} {x : XTree} (hx : cs[i]? = some x)
    (y : XTree) :
    xmatchList segs anc p 0 (cs.set i y) =
      xmatchList segs anc p 0 (cs.take i) ++
        xmatch segs anc (p ++ [i]) y ++
          xmatchList segs anc p (i + 1) (cs.drop (i + 1)) := by
  have hi : i < cs.length := (List.getElem?_eq_some_iff.mp hx).1
  rw [List.set_eq_take_cons_drop y hi, xmatchList_append, xmatchList_cons]
  have hlen : (cs.take i).length = i := by
    simp [List.length_take]; omega
  rw [hlen, List.append_assoc]
  simp

theorem xmatchList_split_self (segs anc : List String) (p : List Nat)
    {cs : List XTree} {i : Nat} {x : XTree} (hx : cs[i]? = some x) :
    xmatchList segs anc p 0 cs =
      xmatchList segs anc p 0 (cs.take i) ++
        xmatch segs anc (p ++ [i]) x ++
          xmatchList segs anc p (i + 1) (cs.drop (i + 1)) := by
  have := xmatchList_split segs anc p hx x
  rwa [set_self_of_getElem? hx] at this

/-- Overwriting a text never changes which nodes a selector matches,
nor their order. -/
theorem xmatch_setTextAt (segs : List String) (v : String) :
    ∀ (q : List Nat) (t : XTree) (anc : List String) (p : List Nat),
      xmatch segs anc p (setTextAt v q t) = xmatch segs anc p t := by
  intro q
  induction q with
  | nil =>
    intro t anc p
    cases t with
    | node tg tx cs => rw [setTextAt, xmatch_node, xmatch_node]
  | cons i qr ih =>
    intro t anc p
    cases t with
    | node tg tx cs =>
      cases hx : cs[i]? with
      | none => rw [setTextAt_cons_none v hx]
      | some x =>
        rw [setTextAt_cons_some v hx, xmatch_node, xmatch_node,
          xmatchList_split segs (anc ++ [tg]) p hx (setTextAt v qr x),
          xmatchList_split_self segs (anc ++ [tg]) p hx, ih]

/-- Appending a leaf `c` at path `q` changes the match list of a
selector only by possibly inserting the new node's path at its
document-order position: the old matches keep their paths, their order
and their relative position around the insertion point. -/
theorem xmatch_appendAt (segs : List String) {c : XTree}
    (hc : c.children = []) :
    ∀ (q : List Nat) (t n : XTree) (ch anc : List String) (p : List Nat),
      getAt q t = some n → chainAt q t = some ch →
      ∃ l1 l2, xmatch segs anc p t = l1 ++ l2 ∧
        xmatch segs anc p (appendAt c q t) =
          l1 ++ (if segs.isSuffixOf (anc ++ ch ++ [c.tag]) then
                   [p ++ q ++ [n.children.length]] else []) ++ l2 := by
  intro q
  induction q with
  | nil =>
    intro t n ch anc p hg hch
    cases t with
    | node tg tx cs =>
      rw [getAt] at hg
      cases hg
      rw [chainAt] at hch
      cases hch
      cases c with
      | node ctag ctx ccs =>
        rw [XTree.children] at hc
        subst hc
        refine ⟨xmatch segs anc p (XTree.node tg tx cs), [], by simp, ?_⟩
        rw [appendAt, xmatch_node, xmatch_node, xmatchList_append,
          xmatchList_cons, xmatchList_nil, xmatch_node, xmatchList_nil]
        simp only [XTree.children, XTree.tag, List.append_nil,
          List.nil_append, List.append_assoc, Nat.zero_add]
  | cons i qr ih =>
    intro t n ch anc p hg hch
    cases t with
    | node tg tx cs =>
      cases hx : cs[i]? with
      | none =>
        rw [getAt_cons_none hx] at hg
        exact absurd hg (by simp)
      | some x =>
        rw [getAt_cons_some hx] at hg
        rw [chainAt_cons_some hx] at hch
        cases hchr : chainAt qr x with
        | none => rw [hchr] at hch; exact absurd hch (by simp)
        | some chr =>
          rw [hchr] at hch
          have hch : tg :: chr = ch := by simpa using hch
          obtain ⟨l1', l2', hx1, hx2⟩ :=
            ih x n chr (anc ++ [tg]) (p ++ [i]) hg hchr
          refine ⟨(if segs.isSuffixOf (anc ++ [tg]) then [p] else []) ++
              (xmatchList segs (anc ++ [tg]) p 0 (cs.take i) ++ l1'),
            l2' ++ xmatchList segs (anc ++ [tg]) p (i + 1)
              (cs.drop (i + 1)), ?_, ?_⟩
          · rw [xmatch_node, xmatchList_split_self segs (anc ++ [tg]) p hx,
              hx1]
            simp [List.append_assoc]
          · rw [appendAt_cons_some c hx, xmatch_node,
              xmatchList_split segs (anc ++ [tg]) p hx (appendAt c qr x),
              hx2, ← hch]
            simp only [List.append_assoc, List.cons_append,
              List.nil_append]

theorem getLast?_of_isSuffixOf {S L : List String}
    (h : S.isSuffixOf L = true) (hne : S ≠ []) :
    L.getLast? = S.getLast? := by
  obtain ⟨T, rfl⟩ := List.isSuffixOf_iff_suffix.mp h
  exact List.getLast?_append_of_ne_nil T hne

/-- Appending a leaf whose tag differs from the selector's final step
leaves the selector's match list untouched. -/
theorem xmatch_appendAt_other (segs : List String) {c : XTree}
    (hc : c.children = []) (hseg : segs ≠ [])
    (htag : segs.getLast? ≠ some c.tag) {q : List Nat} {t n : XTree}
    {ch : List String} (anc : List String) (p : List Nat)
    (hg : getAt q t = some n) (hch : chainAt q t = some ch) :
    xmatch segs anc p (appendAt c q t) = xmatch segs anc p t := by
  obtain ⟨l1, l2, h1, h2⟩ := xmatch_appendAt segs hc q t n ch anc p hg hch
  rw [h2, h1]
  rw [if_neg ?_]
  · simp
  · intro hsuf
    apply htag
    rw [← getLast?_of_isSuffixOf hsuf hseg]
    rw [List.append_assoc]
    rw [List.getLast?_append_of_ne_nil _ (by simp)]
    simp

/-- Appending a leaf when a selector currently matches nothing: the new
match list is the new node's path alone when that node matches the
selector, and stays empty otherwise. -/
theorem xmatch_appendAt_of_empty (segs : List String) {c : XTree}
    (hc : c.children = []) {q : List Nat} {t n : XTree}
    {ch : List String} (anc : List String) (p : List Nat)
    (hg : getAt q t = some n) (hch : chainAt q t = some ch)
    (hempty : xmatch segs anc p t = []) :
    xmatch segs anc p (appendAt c q t) =
      if segs.isSuffixOf (anc ++ ch ++ [c.tag]) then
        [p ++ q ++ [n.children.length]] else [] := by
  obtain ⟨l1, l2, h1, h2⟩ := xmatch_appendAt segs hc q t n ch anc p hg hch
  rw [h1] at hempty
  obtain ⟨e1, e2⟩ := List.append_eq_nil.mp hempty
  rw [h2, e1, e2]
  simp

theorem mem_of_getElem?Some {α : Type} {l : List α} {i : Nat} {a : α}
    (h : l[i]? = some a) : a ∈ l := by
  obtain ⟨hi, rfl⟩ := List.getElem?_eq_some_iff.mp h
  exact List.getElem_mem hi

theorem mem_xmatchList {segs anc : List String} {p q' : List Nat}
    {j : Nat} :
    ∀ {cs : List XTree}, q' ∈ xmatchList segs anc p j cs →
      ∃ k x, cs[k]? = some x ∧ q' ∈ xmatch segs anc (p ++ [j + k]) x := by
  intro cs
  induction cs generalizing j with
  | nil => intro h; rw [xmatchList_nil] at h; exact absurd h (by simp)
  | cons d ds ih =>
    intro h
    rw [xmatchList_cons, List.mem_append] at h
    cases h with
    | inl h => exact ⟨0, d, by simp, by simpa using h⟩
    | inr h =>
      obtain ⟨k, x, hk, hx⟩ := ih h
      refine ⟨k + 1, x, by simpa using hk, ?_⟩
      have : j + 1 + k = j + (k + 1) := by omega
      rwa [this] at hx

/-- Every path in a match list points at a real node whose root-chain
has the selector as a suffix. -/
theorem mem_xmatch {segs : List String} :
    ∀ (t : XTree) {q' : List Nat} (anc : List String) (p : List Nat),
      q' ∈ xmatch segs anc p t →
      ∃ q ch, q' = p ++ q ∧ chainAt q t = some ch ∧
        segs.isSuffixOf (anc ++ ch) = true := by
  intro t
  induction t using XTree.inductionOn with
  | h tg tx cs ihc =>
    intro q' anc p h
    rw [xmatch_node, List.mem_append] at h
    cases h with
    | inl h =>
      by_cases hs : segs.isSuffixOf (anc ++ [tg])
      · rw [if_pos hs] at h
        simp only [List.mem_singleton] at h
        exact ⟨[], [tg], by simp [h], by rw [chainAt], hs⟩
      · rw [if_neg hs] at h
        exact absurd h (by simp)
    | inr h =>
      obtain ⟨k, x, hk, hx⟩ := mem_xmatchList h
      obtain ⟨q, ch, hq, hch, hsuf⟩ :=
        ihc x (mem_of_getElem?Some hk) (anc ++ [tg]) (p ++ [0 + k]) hx
      refine ⟨k :: q, tg :: ch, ?_, ?_, ?_⟩
      · rw [hq]; simp
      · rw [chainAt_cons_some hk, hch]; rfl
      · simpa using hsuf

theorem getAt_of_chainAt {q : List Nat} {t : XTree} {ch : List String}
    (h : chainAt q t = some ch) : ∃ n, getAt q t = some n := by
  induction q generalizing t ch with
  | nil => cases t with
    | node tg tx cs => exact ⟨_, rfl⟩
  | cons i qr ih =>
    cases t with
    | node tg tx cs =>
      cases hx : cs[i]? with
      | none => rw [chainAt_cons_none hx] at h; exact absurd h (by simp)
      | some x =>
        rw [chainAt_cons_some hx] at h
        cases hchr : chainAt qr x with
        | none => rw [hchr] at h; exact absurd h (by simp)
        | some chr =>
          obtain ⟨n, hn⟩ := ih hchr
          exact ⟨n, by rw [getAt_cons_some hx, hn]⟩

theorem chainAt_of_getAt {q : List Nat} {t n : XTree}
    (h : getAt q t = some n) : ∃ ch, chainAt q t = some ch := by
  induction q generalizing t with
  | nil => cases t with
    | node tg tx cs => exact ⟨_, rfl⟩
  | cons i qr ih =>
    cases t with
    | node tg tx cs =>
      cases hx : cs[i]? with
      | none => rw [getAt_cons_none hx] at h; exact absurd h (by simp)
      | some x =>
        rw [getAt_cons_some hx] at h
        obtain ⟨ch, hch⟩ := ih h
        exact ⟨tg :: ch, by rw [chainAt_cons_some hx, hch]; rfl⟩

/-- Overwriting a text changes no tag chain. -/
theorem chainAt_setTextAt (v : String) :
    ∀ (q q' : List Nat) (t : XTree),
      chainAt q' (setTextAt v q t) = chainAt q' t := by
  intro q
  induction q with
  | nil =>
    intro q' t
    cases t with
    | node tg tx cs =>
      rw [setTextAt]
      cases q' with
      | nil => rw [chainAt, chainAt]
      | cons i' qr' => rw [chainAt, chainAt]
  | cons i qr ih =>
    intro q' t
    cases t with
    | node tg tx cs =>
      cases hx : cs[i]? with
      | none => rw [setTextAt_cons_none v hx]
      | some x =>
        rw [setTextAt_cons_some v hx]
        cases q' with
        | nil => rw [chainAt, chainAt]
        | cons i' qr' =>
          by_cases hii : i' = i
          · subst hii
            have hi : i' < cs.length := (List.getElem?_eq_some_iff.mp hx).1
            rw [chainAt_cons_some (List.getElem?_set_self hi),
              chainAt_cons_some hx, ih]
          · cases hx' : cs[i']? with
            | none =>
              rw [chainAt_cons_none (by rw [List.getElem?_set_ne (by omega)]; exact hx'),
                chainAt_cons_none hx']
            | some x' =>
              rw [chainAt_cons_some (x := x') (by rw [List.getElem?_set_ne (by omega)]; exact hx'),
                chainAt_cons_some hx']

/-- Appending a child changes no tag chain of a node that already
existed. -/
theorem chainAt_appendAt (c : XTree) :
    ∀ (q q' : List Nat) (t : XTree), (getAt q' t).isSome →
      chainAt q' (appendAt c q t) = chainAt q' t := by
  intro q
  induction q with
  | nil =>
    intro q' t hv
    cases t with
    | node tg tx cs =>
      rw [appendAt]
      cases q' with
      | nil => rw [chainAt, chainAt]
      | cons i' qr' =>
        cases hx' : cs[i']? with
        | none => rw [getAt_cons_none hx'] at hv; simp at hv
        | some x' =>
          have hi' : i' < cs.length := (List.getElem?_eq_some_iff.mp hx').1
          rw [chainAt_cons_some (x := x') (by rw [List.getElem?_append_left hi']; exact hx'),
            chainAt_cons_some hx']
  | cons i qr ih =>
    intro q' t hv
    cases t with
    | node tg tx cs =>
      cases hx : cs[i]? with
      | none => rw [appendAt_cons_none c hx]
      | some x =>
        rw [appendAt_cons_some c hx]
        cases q' with
        | nil => rw [chainAt, chainAt]
        | cons i' qr' =>
          cases hx' : cs[i']? with
          | none => rw [getAt_cons_none hx'] at hv; simp at hv
          | some x' =>
            rw [getAt_cons_some hx'] at hv
            by_cases hii : i' = i
            · subst hii
              rw [hx'] at hx
              cases hx
              have hi : i' < cs.length := (List.getElem?_eq_some_iff.mp hx').1
              rw [chainAt_cons_some (List.getElem?_set_self hi),
                chainAt_cons_some hx', ih qr' _ hv]
            · rw [chainAt_cons_some (x := x') (by rw [List.getElem?_set_ne (by omega)]; exact hx'),
                chainAt_cons_some hx']

/-! ### Engine-level notions used by the idempotence analysis -/

/-- Parsed target selector of a rule (meaningful under `wfRule`). -/
def segsOf (r : Rule) : List String :=
  (parseXPath r.xpath).getD []

/-- Parsed parent selector of a rule (meaningful under `wfRule`). -/
def psegsOf (r : Rule) : List String :=
  (parseXPath (r.parent_xpath.getD "")).getD []

/-- The tag of any node the rule creates: `xpath.split('/')[-1]`. -/
def leafTag (r : Rule) : String := lastSegment r.xpath

/-- Final step of the parent selector. -/
def parentLastTag (r : Rule) : String := (psegsOf r).getLastD ""

/-- Python `str(...)` of the value a rule injects (meaningful when the value
is present). -/
def valStr (r : Rule) (data : Dict) : String :=
  match ruleValue r data with
  | some pv => pyStr pv
  | Option.none => ""

/-- The rule passes both its condition gate and its value check. -/
def ruleFires (r : Rule) (data : Dict) : Prop :=
  blockedByCondition r data = false ∧ truthy (ruleValue r data) = true

/-- A rule of the shape all built-in THALES rules have: parseable
target locator, a parent locator that is the target locator minus its
final step, and that final step being the creation tag. -/
def wfRule (r : Rule) : Bool :=
  r.parent_xpath.isSome &&
  (parseXPath r.xpath == some (segsOf r)) &&
  (parseXPath (r.parent_xpath.getD "") == some (psegsOf r)) &&
  (segsOf r == psegsOf r ++ [leafTag r])

theorem wfRule_spec {r : Rule} (h : wfRule r = true) :
    ∃ ps, r.parent_xpath = some ps ∧
      parseXPath r.xpath = some (segsOf r) ∧
      parseXPath ps = some (psegsOf r) ∧
      segsOf r = psegsOf r ++ [leafTag r] := by
  unfold wfRule at h
  simp only [Bool.and_eq_true, beq_iff_eq, Option.isSome_iff_exists] at h
  obtain ⟨⟨⟨⟨ps, hps⟩, h1⟩, h2⟩, h3⟩ := h
  rw [hps] at h2
  exact ⟨ps, hps, h1, h2, h3⟩

theorem segsOf_ne_nil {r : Rule} (h : wfRule r = true) : segsOf r ≠ [] := by
  obtain ⟨ps, _, hp, _, _⟩ := wfRule_spec h
  exact parseXPath_ne_nil hp

theorem psegsOf_ne_nil {r : Rule} (h : wfRule r = true) :
    psegsOf r ≠ [] := by
  obtain ⟨ps, _, _, hpp, _⟩ := wfRule_spec h
  exact parseXPath_ne_nil hpp

theorem segsOf_getLast {r : Rule} (h : wfRule r = true) :
    (segsOf r).getLast? = some (leafTag r) := by
  obtain ⟨ps, _, _, _, heq⟩ := wfRule_spec h
  rw [heq, List.getLast?_append_of_ne_nil _ (by simp)]
  rfl

theorem psegsOf_getLast {r : Rule} (h : wfRule r = true) :
    (psegsOf r).getLast? = some (parentLastTag r) := by
  have hne := psegsOf_ne_nil h
  rw [parentLastTag, List.getLastD_eq_getLast?]
  cases hl : (psegsOf r).getLast? with
  | none => exact absurd (List.getLast?_eq_none_iff.mp hl) hne
  | some a => rfl

/-- The well-formedness of a rule list under which the engine is
idempotent: every rule is `wfRule`-shaped, creation tags are pairwise
distinct, and no creation tag collides with any rule's parent-selector
final step. -/
def WFRules (R : List Rule) : Prop :=
  (∀ r ∈ R, wfRule r = true) ∧
  (R.map leafTag).Nodup ∧
  (∀ r ∈ R, ∀ r' ∈ R, leafTag r' ≠ parentLastTag r)

instance : DecidablePred WFRules := fun R => by
  unfold WFRules
  infer_instance

/-- What one rule execution leaves behind, phrased against the current
document: fired rules have a first target match carrying their value;
`noParent` rules have neither target nor parent matches; skips depend
only on the fact dict.  The remaining outcomes cannot arise for
`wfRule`-shaped rules. -/
def RuleInv (data : Dict) (r : Rule) (o : Outcome) (t : XTree) : Prop :=
  match o with
  | .updated v =>
    ruleFires r data ∧ v = valStr r data ∧
    ∃ q qs, xpathPaths t (segsOf r) = q :: qs ∧ textAt q t = some (some v)
  | .created v =>
    ruleFires r data ∧ v = valStr r data ∧
    ∃ q qs, xpathPaths t (segsOf r) = q :: qs ∧ textAt q t = some (some v)
  | .skippedCondition => blockedByCondition r data = true
  | .skippedNoValue =>
    blockedByCondition r data = false ∧ truthy (ruleValue r data) = false
  | .noParent =>
    ruleFires r data ∧ xpathPaths t (segsOf r) = [] ∧
    xpathPaths t (psegsOf r) = []
  | _ => False

/-- The outcome a rule reaches when re-run on a document it already
processed: a creation turns into an update, everything else repeats. -/
def replayOutcome : Outcome → Outcome
  | .created v => .updated v
  | o => o

/-! ### Control-flow characterization of one rule execution -/

theorem run_rule_blocked {r : Rule} {data : Dict} (t : XTree)
    (h : blockedByCondition r data = true) :
    run_rule t r data = (t, Outcome.skippedCondition) := by
  unfold blockedByCondition at h
  cases hc : r.condition with
  | none => rw [hc] at h; exact absurd h (by simp)
  | some c =>
    rw [hc] at h
    simp only [Bool.and_eq_true, decide_eq_true_eq, Bool.not_eq_true'] at h
    obtain ⟨hc', hflag⟩ := h
    simp [run_rule, should_apply_rule, blockedByCondition, hc, hc', hflag]

theorem run_rule_noValue {r : Rule} {data : Dict} (t : XTree)
    (hb : blockedByCondition r data = false)
    (hv : truthy (ruleValue r data) = false) :
    run_rule t r data = (t, Outcome.skippedNoValue) := by
  by_cases hs : should_apply_rule r data = true
  · cases hrv : ruleValue r data with
    | none => simp [run_rule, hs, apply_xml_rule, hrv]
    | some pv =>
      rw [hrv] at hv
      simp only [truthy] at hv
      simp [run_rule, hs, apply_xml_rule, hrv, hv]
  · simp [run_rule, hs, hb]

theorem run_rule_fires {r : Rule} {data : Dict} (t : XTree)
    (hb : blockedByCondition r data = false)
    (hv : truthy (ruleValue r data) = true) :
    run_rule t r data = apply_xml_rule t r data := by
  have hs : should_apply_rule r data = true := by
    unfold should_apply_rule
    cases hc : r.condition with
    | none => exact hv
    | some c =>
      unfold blockedByCondition at hb
      rw [hc] at hb
      by_cases hc' : c = "site_not_gemenos"
      · rw [hc'] at hb
        simp only [decide_eq_true_eq, Bool.and_eq_true_iff] at hb
        simp at hb
        simp [hc', hb]
      · simp only [hc', if_false]
        exact hv
  simp [run_rule, hs]

theorem truthy_exists {ov : Option PyVal} (h : truthy ov = true) :
    ∃ pv, ov = some pv ∧ truthyV pv = true := by
  cases ov with
  | none => exact absurd h (by simp [truthy])
  | some pv => exact ⟨pv, rfl, h⟩

theorem apply_xml_rule_updated {r : Rule} {data : Dict} {t : XTree}
    {pv : PyVal} {segs : List String} {q : List Nat} {qs : List (List Nat)}
    (hrv : ruleValue r data = some pv) (htv : truthyV pv = true)
    (hp : parseXPath r.xpath = some segs)
    (hm : xpathPaths t segs = q :: qs) :
    apply_xml_rule t r data =
      (setTextAt (pyStr pv) q t, Outcome.updated (pyStr pv)) := by
  simp [apply_xml_rule, hrv, htv, hp, hm]

theorem apply_xml_rule_creates {r : Rule} {data : Dict} {t : XTree}
    {pv : PyVal} {segs : List String}
    (hrv : ruleValue r data = some pv) (htv : truthyV pv = true)
    (hp : parseXPath r.xpath = some segs)
    (hm : xpathPaths t segs = []) :
    apply_xml_rule t r data = create_xml_element t r (pyStr pv) := by
  simp [apply_xml_rule, hrv, htv, hp, hm]

theorem apply_xml_rule_failed {r : Rule} {data : Dict} {t : XTree}
    {pv : PyVal}
    (hrv : ruleValue r data = some pv) (htv : truthyV pv = true)
    (hp : parseXPath r.xpath = Option.none) :
    apply_xml_rule t r data = (t, Outcome.failed) := by
  simp [apply_xml_rule, hrv, htv, hp]

theorem create_xml_element_noParentXpath {r : Rule} {t : XTree}
    {v : String} (hps : r.parent_xpath = Option.none) :
    create_xml_element t r v = (t, Outcome.noParentXpath) := by
  simp [create_xml_element, hps]

theorem create_xml_element_parentMalformed {r : Rule} {t : XTree}
    {v : String} {ps : String} (hps : r.parent_xpath = some ps)
    (hpp : parseXPath ps = Option.none) :
    create_xml_element t r v = (t, Outcome.parentMalformed) := by
  simp [create_xml_element, hps, hpp]

theorem create_xml_element_noParent {r : Rule} {t : XTree} {v : String}
    {ps : String} {psegs : List String}
    (hps : r.parent_xpath = some ps) (hpp : parseXPath ps = some psegs)
    (hm : xpathPaths t psegs = []) :
    create_xml_element t r v = (t, Outcome.noParent) := by
  simp [create_xml_element, hps, hpp, hm]

theorem create_xml_element_appends {r : Rule} {t : XTree} {v : String}
    {ps : String} {psegs : List String} {pp : List Nat}
    {pps : List (List Nat)}
    (hps : r.parent_xpath = some ps) (hpp : parseXPath ps = some psegs)
    (hm : xpathPaths t psegs = pp :: pps) :
    create_xml_element t r v =
      (appendAt (XTree.node (lastSegment r.xpath) (some v) []) pp t,
        Outcome.created v) := by
  simp [create_xml_element, hps, hpp, hm]

/-- Exhaustive effect of one rule execution on the document: leave it
alone, overwrite the text of the first match of the rule's parsed
target selector, or append a fresh leaf (tagged with the rule's
creation tag, carrying the rule's value) under the first match of the
rule's parsed parent selector. -/
theorem run_rule_effect (t : XTree) (r : Rule) (data : Dict) :
    (run_rule t r data).1 = t ∨
    (∃ segs q qs, parseXPath r.xpath = some segs ∧
      xpathPaths t segs = q :: qs ∧
      (run_rule t r data).1 = setTextAt (valStr r data) q t) ∨
    (∃ ps psegs pp pps, r.parent_xpath = some ps ∧
      parseXPath ps = some psegs ∧ xpathPaths t psegs = pp :: pps ∧
      (run_rule t r data).1 =
        appendAt (XTree.node (leafTag r) (some (valStr r data)) []) pp t) := by
  by_cases hb : blockedByCondition r data = true
  · left; rw [run_rule_blocked t hb]
  · rw [Bool.not_eq_true] at hb
    by_cases hv : truthy (ruleValue r data) = true
    · rw [run_rule_fires t hb hv]
      obtain ⟨pv, hrv, htv⟩ := truthy_exists hv
      have hval : valStr r data = pyStr pv := by
        rw [valStr, hrv]
      cases hp : parseXPath r.xpath with
      | none => left; rw [apply_xml_rule_failed hrv htv hp]
      | some segs =>
        cases hm : xpathPaths t segs with
        | cons q qs =>
          right; left
          exact ⟨segs, q, qs, rfl, hm,
            by rw [apply_xml_rule_updated hrv htv hp hm, hval]⟩
        | nil =>
          rw [apply_xml_rule_creates hrv htv hp hm]
          cases hps : r.parent_xpath with
          | none => left; rw [create_xml_element_noParentXpath hps]
          | some ps =>
            cases hpp : parseXPath ps with
            | none => left; rw [create_xml_element_parentMalformed hps hpp]
            | some psegs =>
              cases hpm : xpathPaths t psegs with
              | nil => left; rw [create_xml_element_noParent hps hpp hpm]
              | cons pp pps =>
                right; right
                refine ⟨ps, psegs, pp, pps, rfl, hpp, hpm, ?_⟩
                rw [create_xml_element_appends hps hpp hpm, hval]
                rfl
    · rw [Bool.not_eq_true] at hv
      left; rw [run_rule_noValue t hb hv]

theorem mem_xpathPaths {t : XTree} {segs : List String} {q : List Nat}
    (h : q ∈ xpathPaths t segs) :
    ∃ ch, chainAt q t = some ch ∧ segs.isSuffixOf ch = true := by
  obtain ⟨q0, ch, hq, hch, hsuf⟩ := mem_xmatch t [] [] h
  rw [List.nil_append] at hq
  subst hq
  exact ⟨ch, hch, by simpa using hsuf⟩

theorem isSuffixOf_append_single {S L : List String} (x : String)
    (h : S.isSuffixOf L = true) :
    (S ++ [x]).isSuffixOf (L ++ [x]) = true := by
  rw [List.isSuffixOf_iff_suffix] at h ⊢
  obtain ⟨T, rfl⟩ := h
  exact ⟨T, by simp⟩

theorem textAt_eq_some {q : List Nat} {t : XTree} {v : Option String}
    (h : textAt q t = some v) :
    ∃ m, getAt q t = some m ∧ m.text = v := by
  unfold textAt at h
  cases hg : getAt q t with
  | none => rw [hg] at h; exact absurd h (by simp)
  | some m => rw [hg] at h; exact ⟨m, rfl, by simpa using h⟩

/-- One rule execution establishes its own invariant on the document it
leaves behind. -/
theorem run_rule_inv {r : Rule} {data : Dict} (t : XTree)
    (hwf : wfRule r = true) :
    RuleInv data r (run_rule t r data).2 (run_rule t r data).1 := by
  obtain ⟨ps, hps, hp, hpp, hseq⟩ := wfRule_spec hwf
  by_cases hb : blockedByCondition r data = true
  · rw [run_rule_blocked t hb]
    exact hb
  · rw [Bool.not_eq_true] at hb
    by_cases hv : truthy (ruleValue r data) = true
    · rw [run_rule_fires t hb hv]
      obtain ⟨pv, hrv, htv⟩ := truthy_exists hv
      have hval : valStr r data = pyStr pv := by rw [valStr, hrv]
      cases hm : xpathPaths t (segsOf r) with
      | cons q qs =>
        rw [apply_xml_rule_updated hrv htv hp hm]
        refine ⟨⟨hb, hv⟩, hval.symm, q, qs, ?_, ?_⟩
        · show xmatch (segsOf r) [] [] _ = q :: qs
          rw [xmatch_setTextAt]
          exact hm
        · obtain ⟨ch, hch, _⟩ :=
            @mem_xpathPaths t (segsOf r) q
              (by rw [hm]; exact List.mem_cons_self q qs)
          obtain ⟨n, hn⟩ := getAt_of_chainAt hch
          obtain ⟨m', hm', _, _, htext⟩ :=
            getAt_setTextAt_preserved (pyStr pv) q hn
          simp only [if_pos rfl] at htext
          rw [textAt, hm']
          simp [htext]
      | nil =>
        rw [apply_xml_rule_creates hrv htv hp hm]
        cases hpm : xpathPaths t (psegsOf r) with
        | nil =>
          rw [create_xml_element_noParent hps hpp hpm]
          exact ⟨⟨hb, hv⟩, hm, hpm⟩
        | cons pp pps =>
          rw [create_xml_element_appends hps hpp hpm]
          obtain ⟨ch, hch, hsuf⟩ :=
            @mem_xpathPaths t (psegsOf r) pp
              (by rw [hpm]; exact List.mem_cons_self pp pps)
          obtain ⟨n, hn⟩ := getAt_of_chainAt hch
          have hmm : xpathPaths
              (appendAt (XTree.node (lastSegment r.xpath) (some (pyStr pv)) []) pp t)
              (segsOf r) = [pp ++ [n.children.length]] := by
            show xmatch _ [] [] _ = _
            rw [xmatch_appendAt_of_empty (segsOf r) (by rw [XTree.children])
              [] [] hn hch hm]
            rw [if_pos ?_]
            · simp
            · rw [XTree.tag, List.nil_append, hseq]
              show ((psegsOf r) ++ [leafTag r]).isSuffixOf
                (ch ++ [lastSegment r.xpath]) = true
              exact isSuffixOf_append_single _ (by simpa using hsuf)
          refine ⟨⟨hb, hv⟩, hval.symm, pp ++ [n.children.length], [], hmm, ?_⟩
          have := getAt_appendAt_new
            (XTree.node (lastSegment r.xpath) (some (pyStr pv)) []) hn
          rw [textAt, this]
          simp [XTree.text]
    · rw [Bool.not_eq_true] at hv
      rw [run_rule_noValue t hb hv]
      exact ⟨hb, hv⟩

/-- The invariant a rule left behind survives the execution of any
other rule whose creation tag collides neither with this rule's
creation tag nor with its parent selector's final step. -/
theorem ruleInv_step {data : Dict} {r : Rule} {o : Outcome} {t : XTree}
    (hInv : RuleInv data r o t) (hwf : wfRule r = true) (r' : Rule)
    (hwf' : wfRule r' = true)
    (hne1 : leafTag r' ≠ leafTag r)
    (hne2 : leafTag r' ≠ parentLastTag r) :
    RuleInv data r o (run_rule t r' data).1 := by
  rcases run_rule_effect t r' data with heff |
    ⟨segs', q0, qs0, hp', hm', heff⟩ |
    ⟨ps', psegs', pp, pps, hps', hpp', hpm', heff⟩
  · rw [heff]; exact hInv
  · -- the other rule overwrote the text of the first match of its own
    -- target selector
    rw [heff]
    have hsegs' : segs' = segsOf r' := by
      obtain ⟨_, _, hp'', _, _⟩ := wfRule_spec hwf'
      rw [hp''] at hp'
      exact (Option.some_inj.mp hp').symm
    cases o with
    | updated v =>
      obtain ⟨hfires, hval, q, qs, hmatch, htext⟩ := hInv
      refine ⟨hfires, hval, q, qs, ?_, ?_⟩
      · show xmatch _ [] [] _ = _
        rw [xmatch_setTextAt]
        exact hmatch
      · obtain ⟨m, hgm, hmt⟩ := textAt_eq_some htext
        obtain ⟨m', hm'', _, _, htext'⟩ :=
          getAt_setTextAt_preserved (valStr r' data) q0 hgm
        have hqq : q ≠ q0 := by
          intro he
          subst he
          obtain ⟨ch1, hch1, hsuf1⟩ := @mem_xpathPaths t (segsOf r) q
            (by rw [hmatch]; exact List.mem_cons_self q qs)
          obtain ⟨ch2, hch2, hsuf2⟩ := @mem_xpathPaths t segs' q
            (by rw [hm']; exact List.mem_cons_self q qs0)
          rw [hch1] at hch2
          cases hch2
          apply hne1
          have h1 : ch1.getLast? = some (leafTag r) := by
            rw [getLast?_of_isSuffixOf hsuf1 (segsOf_ne_nil hwf)]
            exact segsOf_getLast hwf
          have h2 : ch1.getLast? = some (leafTag r') := by
            rw [getLast?_of_isSuffixOf hsuf2 (by
              rw [hsegs']; exact segsOf_ne_nil hwf')]
            rw [hsegs']
            exact segsOf_getLast hwf'
          rw [h1] at h2
          exact (Option.some_inj.mp h2).symm
        rw [if_neg hqq] at htext'
        rw [textAt, hm'']
        simp [htext', hmt]
    | created v =>
      obtain ⟨hfires, hval, q, qs, hmatch, htext⟩ := hInv
      refine ⟨hfires, hval, q, qs, ?_, ?_⟩
      · show xmatch _ [] [] _ = _
        rw [xmatch_setTextAt]
        exact hmatch
      · obtain ⟨m, hgm, hmt⟩ := textAt_eq_some htext
        obtain ⟨m', hm'', _, _, htext'⟩ :=
          getAt_setTextAt_preserved (valStr r' data) q0 hgm
        have hqq : q ≠ q0 := by
          intro he
          subst he
          obtain ⟨ch1, hch1, hsuf1⟩ := @mem_xpathPaths t (segsOf r) q
            (by rw [hmatch]; exact List.mem_cons_self q qs)
          obtain ⟨ch2, hch2, hsuf2⟩ := @mem_xpathPaths t segs' q
            (by rw [hm']; exact List.mem_cons_self q qs0)
          rw [hch1] at hch2
          cases hch2
          apply hne1
          have h1 : ch1.getLast? = some (leafTag r) := by
            rw [getLast?_of_isSuffixOf hsuf1 (segsOf_ne_nil hwf)]
            exact segsOf_getLast hwf
          have h2 : ch1.getLast? = some (leafTag r') := by
            rw [getLast?_of_isSuffixOf hsuf2 (by
              rw [hsegs']; exact segsOf_ne_nil hwf')]
            rw [hsegs']
            exact segsOf_getLast hwf'
          rw [h1] at h2
          exact (Option.some_inj.mp h2).symm
        rw [if_neg hqq] at htext'
        rw [textAt, hm'']
        simp [htext', hmt]
    | skippedCondition => exact hInv
    | skippedNoValue => exact hInv
    | noParent =>
      obtain ⟨hfires, hm1, hm2⟩ := hInv
      refine ⟨hfires, ?_, ?_⟩
      · show xmatch _ [] [] _ = _
        rw [xmatch_setTextAt]; exact hm1
      · show xmatch _ [] [] _ = _
        rw [xmatch_setTextAt]; exact hm2
    | noParentXpath => exact hInv.elim
    | parentMalformed => exact hInv.elim
    | failed => exact hInv.elim
  · -- the other rule appended a fresh leaf under the first match of
    -- its parent selector
    rw [heff]
    obtain ⟨ch, hch, hsufp⟩ := @mem_xpathPaths t psegs' pp
      (by rw [hpm']; exact List.mem_cons_self pp pps)
    obtain ⟨n, hn⟩ := getAt_of_chainAt hch
    have hleaf : (XTree.node (leafTag r') (some (valStr r' data)) []).children
        = [] := by rw [XTree.children]
    have htag : (XTree.node (leafTag r') (some (valStr r' data)) []).tag
        = leafTag r' := by rw [XTree.tag]
    have hmatches : ∀ S : List String, S ≠ [] →
        S.getLast? ≠ some (leafTag r') →
        xpathPaths (appendAt (XTree.node (leafTag r') (some (valStr r' data)) [])
          pp t) S = xpathPaths t S := by
      intro S hS1 hS2
      show xmatch _ [] [] _ = xmatch _ [] [] _
      exact xmatch_appendAt_other S hleaf hS1 (by rw [htag]; exact hS2)
        [] [] hn hch
    cases o with
    | updated v =>
      obtain ⟨hfires, hval, q, qs, hmatch, htext⟩ := hInv
      refine ⟨hfires, hval, q, qs, ?_, ?_⟩
      · rw [hmatches (segsOf r) (segsOf_ne_nil hwf)
          (by rw [segsOf_getLast hwf]; simp only [Ne, Option.some.injEq]; exact fun he => hne1 he.symm)]
        exact hmatch
      · obtain ⟨m, hgm, hmt⟩ := textAt_eq_some htext
        obtain ⟨m', hm'', _, htext', _, _⟩ :=
          getAt_appendAt_preserved
            (XTree.node (leafTag r') (some (valStr r' data)) []) pp hgm
        rw [textAt, hm'']
        simp [htext', hmt]
    | created v =>
      obtain ⟨hfires, hval, q, qs, hmatch, htext⟩ := hInv
      refine ⟨hfires, hval, q, qs, ?_, ?_⟩
      · rw [hmatches (segsOf r) (segsOf_ne_nil hwf)
          (by rw [segsOf_getLast hwf]; simp only [Ne, Option.some.injEq]; exact fun he => hne1 he.symm)]
        exact hmatch
      · obtain ⟨m, hgm, hmt⟩ := textAt_eq_some htext
        obtain ⟨m', hm'', _, htext', _, _⟩ :=
          getAt_appendAt_preserved
            (XTree.node (leafTag r') (some (valStr r' data)) []) pp hgm
        rw [textAt, hm'']
        simp [htext', hmt]
    | skippedCondition => exact hInv
    | skippedNoValue => exact hInv
    | noParent =>
      obtain ⟨hfires, hm1, hm2⟩ := hInv
      refine ⟨hfires, ?_, ?_⟩
      · rw [hmatches (segsOf r) (segsOf_ne_nil hwf)
          (by rw [segsOf_getLast hwf]; simp only [Ne, Option.some.injEq]; exact fun he => hne1 he.symm)]
        exact hm1
      · rw [hmatches (psegsOf r) (psegsOf_ne_nil hwf)
          (by rw [psegsOf_getLast hwf]; simp only [Ne, Option.some.injEq]; exact fun he => hne2 he.symm)]
        exact hm2
    | noParentXpath => exact hInv.elim
    | parentMalformed => exact hInv.elim
    | failed => exact hInv.elim

theorem run_rules_nil (data : Dict) (t : XTree) :
    run_rules data t [] = (t, []) := by
  rw [run_rules]

theorem run_rules_cons (data : Dict) (t : XTree) (r : Rule)
    (rs : List Rule) :
    run_rules data t (r :: rs) =
      ((run_rules data (run_rule t r data).1 rs).1,
        (r.name, (run_rule t r data).2) ::
          (run_rules data (run_rule t r data).1 rs).2) := by
  rw [run_rules]

/-- The invariant a rule left behind survives a whole run of rules
whose creation tags avoid its own tags. -/
theorem ruleInv_run {data : Dict} {r : Rule} {o : Outcome} :
    ∀ (rs : List Rule) (t : XTree), RuleInv data r o t →
      wfRule r = true →
      (∀ r' ∈ rs, wfRule r' = true ∧ leafTag r' ≠ leafTag r ∧
        leafTag r' ≠ parentLastTag r) →
      RuleInv data r o (run_rules data t rs).1 := by
  intro rs
  induction rs with
  | nil => intro t hInv _ _; rw [run_rules_nil]; exact hInv
  | cons r' rs' ih =>
    intro t hInv hwf hrs
    rw [run_rules_cons]
    obtain ⟨hwf', hne1, hne2⟩ := hrs r' (by simp)
    exact ih (run_rule t r' data).1
      (ruleInv_step hInv hwf r' hwf' hne1 hne2) hwf
      (fun r'' hr'' => hrs r'' (by simp [hr'']))

/-- After one full pass, the trace pairs every rule with its name and
an outcome whose invariant holds on the final document. -/
theorem run_rules_inv (data : Dict) :
    ∀ (R : List Rule) (t : XTree),
      (∀ r ∈ R, wfRule r = true) →
      (R.map leafTag).Nodup →
      (∀ r ∈ R, ∀ r' ∈ R, leafTag r' ≠ parentLastTag r) →
      List.Forall₂ (fun r (e : String × Outcome) =>
          e.1 = r.name ∧ RuleInv data r e.2 (run_rules data t R).1)
        R (run_rules data t R).2 := by
  intro R
  induction R with
  | nil => intro t _ _ _; rw [run_rules_nil]; exact List.Forall₂.nil
  | cons r rs ih =>
    intro t hwf hnd hpl
    rw [run_rules_cons]
    have hnd' := hnd
    rw [List.map_cons, List.nodup_cons] at hnd'
    refine List.Forall₂.cons ⟨rfl, ?_⟩ ?_
    · -- the head rule's own invariant, carried through the tail run
      exact ruleInv_run rs (run_rule t r data).1
        (run_rule_inv t (hwf r (by simp))) (hwf r (by simp))
        (fun r' hr' => ⟨hwf r' (by simp [hr']),
          fun he => hnd'.1 (he ▸ List.mem_map_of_mem leafTag hr'),
          hpl r (by simp) r' (by simp [hr'])⟩)
    · -- the tail, by induction, starting from the head's output
      exact ih (run_rule t r data).1
        (fun r' hr' => hwf r' (by simp [hr'])) hnd'.2
        (fun a ha b hb => hpl a (by simp [ha]) b (by simp [hb]))

/-- Re-running one rule on a document satisfying its invariant is a
no-op on the document: a past creation resolves its target and becomes
an update with the same value, every other outcome repeats. -/
theorem run_rule_replay {data : Dict} {r : Rule} {o : Outcome}
    {t : XTree} (hwf : wfRule r = true) (hInv : RuleInv data r o t) :
    run_rule t r data = (t, replayOutcome o) := by
  obtain ⟨ps, hps, hp, hpp, hseq⟩ := wfRule_spec hwf
  cases o with
  | updated v =>
    obtain ⟨⟨hb, hv⟩, hval, q, qs, hmatch, htext⟩ := hInv
    obtain ⟨pv, hrv, htv⟩ := truthy_exists hv
    have hpy : pyStr pv = v := by rw [hval, valStr, hrv]
    obtain ⟨m, hgm, hmt⟩ := textAt_eq_some htext
    rw [run_rule_fires t hb hv,
      apply_xml_rule_updated hrv htv hp hmatch,
      setTextAt_id hgm (by rw [hmt, hpy]), hpy]
    rfl
  | created v =>
    obtain ⟨⟨hb, hv⟩, hval, q, qs, hmatch, htext⟩ := hInv
    obtain ⟨pv, hrv, htv⟩ := truthy_exists hv
    have hpy : pyStr pv = v := by rw [hval, valStr, hrv]
    obtain ⟨m, hgm, hmt⟩ := textAt_eq_some htext
    rw [run_rule_fires t hb hv,
      apply_xml_rule_updated hrv htv hp hmatch,
      setTextAt_id hgm (by rw [hmt, hpy]), hpy]
    rfl
  | skippedCondition => rw [run_rule_blocked t hInv]; rfl
  | skippedNoValue =>
    rw [run_rule_noValue t hInv.1 hInv.2]; rfl
  | noParent =>
    obtain ⟨⟨hb, hv⟩, hm, hpm⟩ := hInv
    obtain ⟨pv, hrv, htv⟩ := truthy_exists hv
    rw [run_rule_fires t hb hv, apply_xml_rule_creates hrv htv hp hm,
      create_xml_element_noParent hps hpp hpm]
    rfl
  | noParentXpath => exact hInv.elim
  | parentMalformed => exact hInv.elim
  | failed => exact hInv.elim

/-- Re-running a whole rule list on a document satisfying every rule's
invariant leaves the document untouched and replays the trace with
creations turned into updates. -/
theorem run_rules_replay (data : Dict) :
    ∀ (R : List Rule) (t : XTree) (trace : List (String × Outcome)),
      (∀ r ∈ R, wfRule r = true) →
      List.Forall₂ (fun r (e : String × Outcome) =>
          e.1 = r.name ∧ RuleInv data r e.2 t) R trace →
      run_rules data t R =
        (t, trace.map (fun e => (e.1, replayOutcome e.2))) := by
  intro R
  induction R with
  | nil =>
    intro t trace _ hf
    cases hf
    rw [run_rules_nil]
    rfl
  | cons r rs ih =>
    intro t trace hwf hf
    cases hf with
    | cons he hf' =>
      rename_i e es
      obtain ⟨hname, hInv⟩ := he
      have hstep : run_rule t r data = (t, replayOutcome e.2) :=
        run_rule_replay (hwf r (by simp)) hInv
      rw [run_rules_cons, hstep]
      have := ih t es (fun r' hr' => hwf r' (by simp [hr'])) hf'
      rw [this]
      simp [hname]

/-! ### Claim C1 -/

/-- For the C1 counterexample: a rule whose parent locator is NOT the
target locator minus its final step (`//B/C` vs parent `//P`). -/
def mismatchedRule : Rule :=
  { name := "r", xpath := "//B/C", source_field := "f"
  , parent_xpath := some "//P" }

/-- Document with a `P` node but no `B`, for the C1 counterexample. -/
def mismatchedDoc : XTree :=
  .node "Root" Option.none [.node "P" Option.none []]

/-- Facts for the C1 counterexample. -/
def mismatchedData : Dict := [("f", .str "v")]

/-- C1, as stated, is FALSE: quantified over every Rule Set, re-running
the engine on its own output need not be a no-op.  With the single rule
`{xpath: "//B/C", parent_xpath: "//P"}` on `<Root><P/></Root>`, the
first pass appends `<C>v</C>` under `<P>` (outcome `Created`), but on
the second pass `//B/C` still matches nothing (the created node's chain
is `Root/P/C`), so the engine appends a duplicate `<C>v</C>` sibling
and reports `Created` again instead of `Updated`. -/
theorem engine_not_idempotent_for_arbitrary_rules :
    (run_rules mismatchedData
        (run_rules mismatchedData mismatchedDoc [mismatchedRule]).1
        [mismatchedRule]).1 ≠
      (run_rules mismatchedData mismatchedDoc [mismatchedRule]).1 ∧
    (run_rules mismatchedData
        (run_rules mismatchedData mismatchedDoc [mismatchedRule]).1
        [mismatchedRule]).2 = [("r", Outcome.created "v")] ∧
    (run_rules mismatchedData
        (run_rules mismatchedData mismatchedDoc [mismatchedRule]).1
        [mismatchedRule]).1 =
      XTree.node "Root" Option.none
        [XTree.node "P" Option.none
          [XTree.node "C" (some "v") [], XTree.node "C" (some "v") []]] := by
  refine ⟨by decide, by decide, by decide⟩

/-- C1 (amended): for the engine's built-in THALES rule table — whose
rules all have their parent locator equal to the target locator minus
its final step, pairwise-distinct creation tags, and no creation tag
colliding with a parent locator's final step — re-running
`correct_xml_file`'s rule loop on its own output with the same facts is
a no-op at the data level: the document is unchanged, every rule that
ended in the `Created` path on the first pass reaches `Updated` with
the same value on the second pass, every other outcome repeats, and no
duplicate sibling is created (the trees are equal). -/
theorem engine_idempotent_on_builtin_rules (d : XTree) (data : Dict) :
    run_rules data (run_rules data d xml_rules).1 xml_rules =
      ((run_rules data d xml_rules).1,
        (run_rules data d xml_rules).2.map
          (fun e => (e.1, replayOutcome e.2))) ∧
    (∀ (i : Nat) (n : String) (v : String),
      (run_rules data d xml_rules).2[i]? = some (n, Outcome.created v) →
      (run_rules data (run_rules data d xml_rules).1 xml_rules).2[i]? =
        some (n, Outcome.updated v)) := by
  have hwf : ∀ r ∈ xml_rules, wfRule r = true := by decide
  have hnd : (xml_rules.map leafTag).Nodup := by decide
  have hpl : ∀ r ∈ xml_rules, ∀ r' ∈ xml_rules,
      leafTag r' ≠ parentLastTag r := by decide
  have hForall := run_rules_inv data xml_rules d hwf hnd hpl
  have hmain := run_rules_replay data xml_rules
    (run_rules data d xml_rules).1 (run_rules data d xml_rules).2
    hwf hForall
  refine ⟨hmain, ?_⟩
  intro i n v hidx
  rw [hmain]
  simp [List.getElem?_map, hidx, replayOutcome]

/-- Witness for C1 (amended): a document holding `ReferenceInformation/
OrderId` but no `IdValue`; the first pass creates `IdValue`, the second
pass updates it with the same value and the document does not change. -/
theorem engine_idempotent_on_builtin_rules_witness :
    (run_rules [("numeroCommande", PyVal.str "FU70001236")]
        (XTree.node "Root" Option.none
          [XTree.node "ReferenceInformation" Option.none
            [XTree.node "OrderId" Option.none []]]) xml_rules).2[0]? =
      some ("numero_commande", Outcome.created "FU70001236") ∧
    (run_rules [("numeroCommande", PyVal.str "FU70001236")]
        (run_rules [("numeroCommande", PyVal.str "FU70001236")]
          (XTree.node "Root" Option.none
            [XTree.node "ReferenceInformation" Option.none
              [XTree.node "OrderId" Option.none []]]) xml_rules).1
        xml_rules).2[0]? =
      some ("numero_commande", Outcome.updated "FU70001236") := by
  refine ⟨by decide, ?_⟩
  exact (engine_idempotent_on_builtin_rules
    (XTree.node "Root" Option.none
      [XTree.node "ReferenceInformation" Option.none
        [XTree.node "OrderId" Option.none []]])
    [("numeroCommande", PyVal.str "FU70001236")]).2 0
    "numero_commande" "FU70001236" (by decide)

/-! ### Claim C2 -/

/-- C2: the code violates the claim.  With facts providing only the
order number and a document `<Root/>` containing neither the target
`//ReferenceInformation/OrderId/IdValue` nor the parent
`//ReferenceInformation/OrderId`, the `numero_commande` rule takes the
parent-not-found path (`_create_xml_element` returns silently), leaves
the document unchanged — but `_apply_xml_rule` still returns `True`, so
the engine reports the rule as a successfully applied correction
(`corrections_applied = ["numero_commande"]`) instead of emitting any
non-success `Skipped-NoParent` outcome. -/
theorem noParent_reported_as_success :
    (run_rules [("numeroCommande", PyVal.str "FU70001236")]
        (XTree.node "Root" Option.none []) xml_rules).1 =
      XTree.node "Root" Option.none [] ∧
    (run_rules [("numeroCommande", PyVal.str "FU70001236")]
        (XTree.node "Root" Option.none []) xml_rules).2[0]? =
      some ("numero_commande", Outcome.noParent) ∧
    successOf Outcome.noParent = true ∧
    corrections_applied
        (run_rules [("numeroCommande", PyVal.str "FU70001236")]
          (XTree.node "Root" Option.none []) xml_rules).2 =
      ["numero_commande"] := by
  refine ⟨by decide, by decide, rfl, by decide⟩

/-! ### Claim C3 -/

/-- C3: the code violates the claim.  A rule with no `parent_location`
whose target matches nothing (`//Missing` against `<Root/>`) indeed can
never succeed in modifying the document — but instead of surfacing as a
rule failure, `_create_xml_element` hits its `if not parent_xpath:
return` and `_apply_xml_rule` returns `True`: the engine silently does
nothing while reporting success (the rule lands in
`corrections_applied`). -/
theorem orphan_rule_silently_reports_success :
    run_rule (XTree.node "Root" Option.none [])
        { name := "orphan", xpath := "//Missing", source_field := "f" }
        [("f", PyVal.str "v")] =
      (XTree.node "Root" Option.none [], Outcome.noParentXpath) ∧
    successOf Outcome.noParentXpath = true ∧
    corrections_applied [("orphan", Outcome.noParentXpath)] = ["orphan"] := by
  refine ⟨by decide, rfl, by decide⟩

/-! ### Claim C4 -/

/-- C4, as stated, is FALSE: on unparsable input the engine does not
fail the invocation with a `DocumentParseError` — the `except` block in
`correct_xml_file` swallows the parse error (only displaying it in the
UI) and the call returns normally, handing back the original text
unchanged with an empty applied-rules list, indistinguishable in type
from a successful run. -/
theorem parse_failure_returns_original_text :
    correct_xml_file "<Root><unclosed>" Option.none
        [("numeroCommande", PyVal.str "FU70001236")] xml_rules =
      ("<Root><unclosed>", []) := by
  rfl

/-- C4 (amended): on unparsable input (`etree.fromstring` raised, the
parse result is `none`) no rule is processed, no per-rule outcome is
produced, and the invocation returns the original document text
unchanged with an empty applied-rules list — it performs no partial
processing, but it also does not propagate any `DocumentParseError`. -/
theorem parse_failure_no_partial_processing
    (xml : String) (data : Dict) (rules : List Rule) :
    correct_xml_file xml Option.none data rules = (xml, []) := by
  rfl

/-! ### Claim C10 -/

/-- C10: when the `site_mission` fact is absent or empty, both
producers compute the derived flag from the empty string (`str(row.get(
'Site Mission', '')).strip()` is `""`; `"GEMENOS" not in "".upper()`),
and `"GEMENOS"` does not occur in `""`, so `site_not_gemenos` is `true`
— and with the flag stored, no rule of the engine's table is blocked by
its condition gate, exactly as for an explicit non-GEMENOS site such as
`"LYON"`. -/
theorem site_flag_true_on_empty_site :
    site_not_gemenos "" = true ∧
    site_not_gemenos "LYON" = true ∧
    site_not_gemenos "Gemenos" = false ∧
    xml_rules.all (fun r => !(blockedByCondition r
      [("siteNotGemenos", PyVal.bool (site_not_gemenos ""))])) = true ∧
    xml_rules.all (fun r => !(blockedByCondition r
      [("siteNotGemenos", PyVal.bool (site_not_gemenos "LYON"))])) = true := by
  refine ⟨rfl, rfl, rfl, by decide, by decide⟩

/-! ### Claim C5 -/

theorem apply_xml_rule_noValue {r : Rule} {data : Dict} (t : XTree)
    (hv : truthy (ruleValue r data) = false) :
    apply_xml_rule t r data = (t, Outcome.skippedNoValue) := by
  cases hrv : ruleValue r data with
  | none => simp [apply_xml_rule, hrv]
  | some pv =>
    rw [hrv] at hv
    simp only [truthy] at hv
    simp [apply_xml_rule, hrv, hv]

/-- A rule without a condition behaves exactly as `_apply_xml_rule`
alone: the gate adds nothing, the execution goes straight to value
resolution. -/
theorem run_rule_no_condition {r : Rule} {data : Dict} (t : XTree)
    (hc : r.condition = Option.none) :
    run_rule t r data = apply_xml_rule t r data := by
  have hb : blockedByCondition r data = false := by
    simp [blockedByCondition, hc]
  by_cases hv : truthy (ruleValue r data) = true
  · exact run_rule_fires t hb hv
  · rw [Bool.not_eq_true] at hv
    rw [run_rule_noValue t hb hv, apply_xml_rule_noValue t hv]

/-- C5: for every rule of the engine's table that carries a condition,
a `siteNotGemenos` flag that is absent or falsy makes the rule exit
with `Skipped-Condition` and leave the document untouched, whatever the
document (in particular whether or not the target exists); and every
rule without a condition proceeds directly to value resolution
(`run_rule` coincides with `_apply_xml_rule`). -/
theorem condition_gating (r : Rule) (hr : r ∈ xml_rules) (d : XTree)
    (data : Dict) :
    (∀ c, r.condition = some c →
      truthy (dictGet data "siteNotGemenos") = false →
      run_rule d r data = (d, Outcome.skippedCondition)) ∧
    (r.condition = Option.none →
      run_rule d r data = apply_xml_rule d r data) := by
  constructor
  · intro c hc hflag
    have hcs : c = "site_not_gemenos" := by
      fin_cases hr <;> simp_all
    refine run_rule_blocked d ?_
    rw [blockedByCondition, hc, hcs, hflag]
    simp
  · intro hc
    exact run_rule_no_condition d hc

/-- Witness for C5: the conditional `worksite_conditional` rule, facts
lacking the flag, and a document in which its target `//WorkSite/
WorkSiteName` exists — the outcome is `Skipped-Condition` and the
document is untouched; and the condition-free `numero_commande` rule
goes straight to value resolution. -/
theorem condition_gating_witness :
    run_rule
        (XTree.node "Root" Option.none
          [XTree.node "WorkSite" Option.none
            [XTree.node "WorkSiteName" (some "old") []]])
        { name := "worksite_conditional"
        , description := "Centre d'analyse dans WorkSiteName si site ≠ GEMENOS"
        , xpath := "//WorkSite/WorkSiteName"
        , source_field := "centre_analyse"
        , action := "create_or_update"
        , condition := some "site_not_gemenos"
        , parent_xpath := some "//WorkSite"
        , group := "ContractInformation" }
        [("centreAnalyse", PyVal.str "1FRA")] =
      (XTree.node "Root" Option.none
        [XTree.node "WorkSite" Option.none
          [XTree.node "WorkSiteName" (some "old") []]],
        Outcome.skippedCondition) ∧
    run_rule (XTree.node "Root" Option.none [])
        { name := "numero_commande"
        , description := "Numéro de commande dans OrderId/IdValue"
        , xpath := "//ReferenceInformation/OrderId/IdValue"
        , source_field := "order_id"
        , action := "create_or_update"
        , parent_xpath := some "//ReferenceInformation/OrderId"
        , group := "ReferenceInformation" } [] =
      apply_xml_rule (XTree.node "Root" Option.none [])
        { name := "numero_commande"
        , description := "Numéro de commande dans OrderId/IdValue"
        , xpath := "//ReferenceInformation/OrderId/IdValue"
        , source_field := "order_id"
        , action := "create_or_update"
        , parent_xpath := some "//ReferenceInformation/OrderId"
        , group := "ReferenceInformation" } [] := by
  constructor
  · exact (condition_gating _ (by decide) _ _).1 "site_not_gemenos" rfl
      (by decide)
  · exact (condition_gating _ (by decide) _ _).2 rfl

/-! ### Claim C6 -/

theorem XTree.eta (t : XTree) :
    t = XTree.node t.tag t.text t.children := by
  cases t with
  | node tg tx cs => rfl

/-- C6: whenever the engine creates a node, the new node is a leaf
labelled with the final path segment of the rule's `target_location`
(`xpath.split('/')[-1]`), carrying the value as text, appended as the
LAST child of the FIRST node matching the parent locator; and the
`position` hint carried by the sync-script rule metadata has no
influence on the result. -/
theorem creation_appends_last_child (root : XTree) (r : Rule)
    (v : String) {ps : String} {psegs : List String} {pp : List Nat}
    {pps : List (List Nat)} {n : XTree}
    (hps : r.parent_xpath = some ps) (hpp : parseXPath ps = some psegs)
    (hm : xpathPaths root psegs = pp :: pps)
    (hn : getAt pp root = some n) :
    create_xml_element root r v =
      (appendAt (XTree.node (lastSegment r.xpath) (some v) []) pp root,
        Outcome.created v) ∧
    getAt pp (create_xml_element root r v).1 =
      some (XTree.node n.tag n.text
        (n.children ++ [XTree.node (lastSegment r.xpath) (some v) []])) ∧
    (∀ posn : Option String,
      create_xml_element root { r with position := posn } v =
        create_xml_element root r v) := by
  have h1 := create_xml_element_appends (t := root) (v := v) hps hpp hm
  refine ⟨h1, ?_, fun posn => rfl⟩
  rw [h1]
  obtain ⟨m', hm', htag, htext, heq, _⟩ :=
    getAt_appendAt_preserved
      (XTree.node (lastSegment r.xpath) (some v) []) pp hn
  rw [hm', XTree.eta m', htag, htext, heq rfl]

/-- Witness for C6: creating `IdValue` under the first `OrderId` of a
document holding two `OrderId` nodes appends the leaf as last child of
the first one only. -/
theorem creation_appends_last_child_witness :
    create_xml_element
        (XTree.node "Root" Option.none
          [XTree.node "ReferenceInformation" Option.none
            [XTree.node "OrderId" Option.none
              [XTree.node "Other" Option.none []],
             XTree.node "OrderId" Option.none []]])
        { name := "numero_commande"
        , xpath := "//ReferenceInformation/OrderId/IdValue"
        , source_field := "order_id"
        , parent_xpath := some "//ReferenceInformation/OrderId" }
        "FU70001236" =
      (appendAt (XTree.node "IdValue" (some "FU70001236") []) [0, 0]
        (XTree.node "Root" Option.none
          [XTree.node "ReferenceInformation" Option.none
            [XTree.node "OrderId" Option.none
              [XTree.node "Other" Option.none []],
             XTree.node "OrderId" Option.none []]]),
        Outcome.created "FU70001236") ∧
    getAt [0, 0]
        (create_xml_element
          (XTree.node "Root" Option.none
            [XTree.node "ReferenceInformation" Option.none
              [XTree.node "OrderId" Option.none
                [XTree.node "Other" Option.none []],
               XTree.node "OrderId" Option.none []]])
          { name := "numero_commande"
          , xpath := "//ReferenceInformation/OrderId/IdValue"
          , source_field := "order_id"
          , parent_xpath := some "//ReferenceInformation/OrderId" }
          "FU70001236").1 =
      some (XTree.node "OrderId" Option.none
        [XTree.node "Other" Option.none [],
         XTree.node "IdValue" (some "FU70001236") []]) := by
  have h := @creation_appends_last_child
    (XTree.node "Root" Option.none
      [XTree.node "ReferenceInformation" Option.none
        [XTree.node "OrderId" Option.none
          [XTree.node "Other" Option.none []],
         XTree.node "OrderId" Option.none []]])
    { name := "numero_commande"
    , xpath := "//ReferenceInformation/OrderId/IdValue"
    , source_field := "order_id"
    , parent_xpath := some "//ReferenceInformation/OrderId" }
    "FU70001236" "//ReferenceInformation/OrderId"
    ["ReferenceInformation", "OrderId"] [0, 0] [[0, 1]]
    (XTree.node "OrderId" Option.none
      [XTree.node "Other" Option.none []])
    rfl (by decide) (by decide) (by decide)
  exact ⟨h.1, h.2.1⟩

/-! ### Claim C9 -/

/-- C9, as stated, is FALSE for a malformed PARENT locator: the rule
`{xpath: "//Nope/Child", parent_xpath: "///"}` (target valid but
matching nothing, parent expression rejected by the evaluator) produces
ZERO `Failed` outcomes — the exception is swallowed inside
`_create_xml_element` and `_apply_xml_rule` returns `True`, so the
broken rule is even reported as an applied correction alongside the
following valid rule. -/
theorem malformed_parent_locator_swallowed :
    (run_rules [("f", PyVal.str "v"), ("numeroCommande", PyVal.str "FU1")]
        (XTree.node "Root" Option.none
          [XTree.node "ReferenceInformation" Option.none
            [XTree.node "OrderId" Option.none
              [XTree.node "IdValue" (some "old") []]]])
        [{ name := "bad", xpath := "//Nope/Child", source_field := "f"
         , parent_xpath := some "///" },
         { name := "numero_commande"
         , xpath := "//ReferenceInformation/OrderId/IdValue"
         , source_field := "order_id"
         , parent_xpath := some "//ReferenceInformation/OrderId" }]).2 =
      [("bad", Outcome.parentMalformed),
       ("numero_commande", Outcome.updated "FU1")] ∧
    ((run_rules [("f", PyVal.str "v"), ("numeroCommande", PyVal.str "FU1")]
        (XTree.node "Root" Option.none
          [XTree.node "ReferenceInformation" Option.none
            [XTree.node "OrderId" Option.none
              [XTree.node "IdValue" (some "old") []]]])
        [{ name := "bad", xpath := "//Nope/Child", source_field := "f"
         , parent_xpath := some "///" },
         { name := "numero_commande"
         , xpath := "//ReferenceInformation/OrderId/IdValue"
         , source_field := "order_id"
         , parent_xpath := some "//ReferenceInformation/OrderId" }]).2.filter
        (fun e => e.2 == Outcome.failed)).length = 0 ∧
    corrections_applied
        (run_rules [("f", PyVal.str "v"), ("numeroCommande", PyVal.str "FU1")]
          (XTree.node "Root" Option.none
            [XTree.node "ReferenceInformation" Option.none
              [XTree.node "OrderId" Option.none
                [XTree.node "IdValue" (some "old") []]]])
          [{ name := "bad", xpath := "//Nope/Child", source_field := "f"
           , parent_xpath := some "///" },
           { name := "numero_commande"
           , xpath := "//ReferenceInformation/OrderId/IdValue"
           , source_field := "order_id"
           , parent_xpath := some "//ReferenceInformation/OrderId" }]).2 =
      ["bad", "numero_commande"] := by
  refine ⟨by decide, by decide, by decide⟩

/-- C9 (amended): a malformed TARGET locator in one rule produces
exactly one `Failed` outcome for that rule (a non-success outcome,
distinct from every soft skip), leaves the document untouched, and does
not disturb the processing of the remaining rules: the tail runs on the
same document and produces exactly the trace it would produce alone. -/
theorem malformed_target_locator_isolated (d : XTree) (data : Dict)
    (r : Rule) (rest : List Rule)
    (hp : parseXPath r.xpath = Option.none)
    (hb : blockedByCondition r data = false)
    (hv : truthy (ruleValue r data) = true) :
    run_rules data d (r :: rest) =
      ((run_rules data d rest).1,
        (r.name, Outcome.failed) :: (run_rules data d rest).2) ∧
    successOf Outcome.failed = false := by
  obtain ⟨pv, hrv, htv⟩ := truthy_exists hv
  have hstep : run_rule d r data = (d, Outcome.failed) := by
    rw [run_rule_fires d hb hv, apply_xml_rule_failed hrv htv hp]
  rw [run_rules_cons, hstep]
  exact ⟨rfl, rfl⟩

/-- Witness for C9 (amended): the malformed target `"///"` ahead of the
valid `numero_commande` rule yields `Failed` for the first rule and
`Updated` for the second, exactly as the second rule alone. -/
theorem malformed_target_locator_isolated_witness :
    run_rules [("f", PyVal.str "v"), ("numeroCommande", PyVal.str "FU1")]
        (XTree.node "Root" Option.none
          [XTree.node "ReferenceInformation" Option.none
            [XTree.node "OrderId" Option.none
              [XTree.node "IdValue" (some "old") []]]])
        [{ name := "bad", xpath := "///", source_field := "f" },
         { name := "numero_commande"
         , xpath := "//ReferenceInformation/OrderId/IdValue"
         , source_field := "order_id"
         , parent_xpath := some "//ReferenceInformation/OrderId" }] =
      ((run_rules [("f", PyVal.str "v"), ("numeroCommande", PyVal.str "FU1")]
          (XTree.node "Root" Option.none
            [XTree.node "ReferenceInformation" Option.none
              [XTree.node "OrderId" Option.none
                [XTree.node "IdValue" (some "old") []]]])
          [{ name := "numero_commande"
           , xpath := "//ReferenceInformation/OrderId/IdValue"
           , source_field := "order_id"
           , parent_xpath := some "//ReferenceInformation/OrderId" }]).1,
        ("bad", Outcome.failed) ::
          (run_rules [("f", PyVal.str "v"), ("numeroCommande", PyVal.str "FU1")]
            (XTree.node "Root" Option.none
              [XTree.node "ReferenceInformation" Option.none
                [XTree.node "OrderId" Option.none
                  [XTree.node "IdValue" (some "old") []]]])
            [{ name := "numero_commande"
             , xpath := "//ReferenceInformation/OrderId/IdValue"
             , source_field := "order_id"
             , parent_xpath := some "//ReferenceInformation/OrderId" }]).2) ∧
    (run_rules [("f", PyVal.str "v"), ("numeroCommande", PyVal.str "FU1")]
        (XTree.node "Root" Option.none
          [XTree.node "ReferenceInformation" Option.none
            [XTree.node "OrderId" Option.none
              [XTree.node "IdValue" (some "old") []]]])
        [{ name := "numero_commande"
         , xpath := "//ReferenceInformation/OrderId/IdValue"
         , source_field := "order_id"
         , parent_xpath := some "//ReferenceInformation/OrderId" }]).2 =
      [("numero_commande", Outcome.updated "FU1")] := by
  refine ⟨?_, by decide⟩
  exact (malformed_target_locator_isolated _ _ _ _ (by decide) (by decide)
    (by decide)).1

/-! ### Claim C7 -/

theorem mem_xmatch_shape {segs : List String} {t : XTree}
    {q' : List Nat} {anc : List String} {p : List Nat}
    (h : q' ∈ xmatch segs anc p t) : ∃ s, q' = p ++ s := by
  obtain ⟨q, _, hq, _, _⟩ := mem_xmatch t anc p h
  exact ⟨q, hq⟩

theorem mem_xmatchList_shape {segs anc : List String} {p q' : List Nat}
    {j : Nat} {cs : List XTree} (h : q' ∈ xmatchList segs anc p j cs) :
    ∃ k s, q' = p ++ (j + k) :: s := by
  obtain ⟨k, x, hk, hx⟩ := mem_xmatchList h
  obtain ⟨s, hs⟩ := mem_xmatch_shape hx
  exact ⟨k, s, by rw [hs]; simp⟩

theorem nodup_xmatchList {segs : List String} :
    ∀ (cs : List XTree),
      (∀ c ∈ cs, ∀ (anc : List String) (p : List Nat),
        (xmatch segs anc p c).Nodup) →
      ∀ (anc : List String) (p : List Nat) (j : Nat),
        (xmatchList segs anc p j cs).Nodup := by
  intro cs
  induction cs with
  | nil => intro _ anc p j; rw [xmatchList_nil]; exact List.nodup_nil
  | cons d ds ihl =>
    intro hmem anc p j
    rw [xmatchList_cons]
    refine List.Nodup.append (hmem d (by simp) anc (p ++ [j]))
      (ihl (fun c hc => hmem c (by simp [hc])) anc p (j + 1)) ?_
    intro a ha1 ha2
    obtain ⟨s1, hs1⟩ := mem_xmatch_shape ha1
    obtain ⟨k, s2, hs2⟩ := mem_xmatchList_shape ha2
    rw [hs1, List.append_assoc] at hs2
    have := List.append_cancel_left hs2
    simp only [List.cons_append, List.nil_append, List.cons.injEq] at this
    omega

/-- A selector's match list never repeats a path. -/
theorem nodup_xmatch {segs : List String} :
    ∀ (t : XTree) (anc : List String) (p : List Nat),
      (xmatch segs anc p t).Nodup := by
  intro t
  induction t using XTree.inductionOn with
  | h tg tx cs ihc =>
    intro anc p
    rw [xmatch_node]
    refine List.Nodup.append ?_
      (nodup_xmatchList cs (fun c hc => ihc c hc) (anc ++ [tg]) p 0) ?_
    · split <;> simp
    · intro a ha1 ha2
      have hap : a = p := by
        by_cases hs : segs.isSuffixOf (anc ++ [tg])
        · rw [if_pos hs] at ha1; simpa using ha1
        · rw [if_neg hs] at ha1; exact absurd ha1 (by simp)
      subst hap
      obtain ⟨k, s, hs⟩ := mem_xmatchList_shape ha2
      have : a ++ [] = a ++ (0 + k) :: s := by simp only [List.append_nil]; exact hs
      have := List.append_cancel_left this
      exact absurd this (by simp)

/-- C7: the engine inspects and mutates only the FIRST structural match
of a locator.  When the target locator matches, only the head of the
document-order match list has its text overwritten — every later match
is a distinct node whose text is untouched.  When the target matches
nothing and a creation happens, the new child goes under the head of
the parent locator's match list only — every later parent match keeps
its child count and text. -/
theorem first_match_only (root : XTree) (r : Rule) (data : Dict)
    {pv : PyVal} {segs : List String}
    (hrv : ruleValue r data = some pv) (htv : truthyV pv = true)
    (hp : parseXPath r.xpath = some segs) :
    (∀ q qs, xpathPaths root segs = q :: qs →
      apply_xml_rule root r data =
        (setTextAt (pyStr pv) q root, Outcome.updated (pyStr pv)) ∧
      ∀ q' ∈ qs, q' ≠ q ∧
        textAt q' (apply_xml_rule root r data).1 = textAt q' root) ∧
    (∀ ps psegs pp pps, xpathPaths root segs = [] →
      r.parent_xpath = some ps → parseXPath ps = some psegs →
      xpathPaths root psegs = pp :: pps →
      apply_xml_rule root r data =
        (appendAt (XTree.node (lastSegment r.xpath) (some (pyStr pv)) [])
          pp root, Outcome.created (pyStr pv)) ∧
      ∀ p' ∈ pps, p' ≠ pp ∧
        childCountAt p' (apply_xml_rule root r data).1 =
          childCountAt p' root ∧
        textAt p' (apply_xml_rule root r data).1 = textAt p' root) := by
  constructor
  · intro q qs hm
    have happ := apply_xml_rule_updated hrv htv hp hm
    refine ⟨happ, ?_⟩
    intro q' hq'
    have hnd : (q :: qs).Nodup := by
      rw [← hm]; exact nodup_xmatch root [] []
    have hne : q' ≠ q := by
      intro he
      exact (List.nodup_cons.mp hnd).1 (he ▸ hq')
    refine ⟨hne, ?_⟩
    rw [happ]
    obtain ⟨ch, hch, _⟩ := @mem_xpathPaths root segs q'
      (by rw [hm]; simp [hq'])
    obtain ⟨n, hn⟩ := getAt_of_chainAt hch
    obtain ⟨m', hm', _, _, htext⟩ :=
      getAt_setTextAt_preserved (pyStr pv) q hn
    rw [if_neg hne] at htext
    rw [textAt, textAt, hm', hn]
    simp [htext]
  · intro ps psegs pp pps hm hps hpp hpm
    have happ : apply_xml_rule root r data =
        (appendAt (XTree.node (lastSegment r.xpath) (some (pyStr pv)) [])
          pp root, Outcome.created (pyStr pv)) := by
      rw [apply_xml_rule_creates hrv htv hp hm,
        create_xml_element_appends hps hpp hpm]
    refine ⟨happ, ?_⟩
    intro p' hp'
    have hnd : (pp :: pps).Nodup := by
      rw [← hpm]; exact nodup_xmatch root [] []
    have hne : p' ≠ pp := by
      intro he
      exact (List.nodup_cons.mp hnd).1 (he ▸ hp')
    refine ⟨hne, ?_, ?_⟩
    · rw [happ]
      obtain ⟨ch, hch, _⟩ := @mem_xpathPaths root psegs p'
        (by rw [hpm]; simp [hp'])
      obtain ⟨n, hn⟩ := getAt_of_chainAt hch
      obtain ⟨m', hm', _, _, _, hlen⟩ :=
        getAt_appendAt_preserved
          (XTree.node (lastSegment r.xpath) (some (pyStr pv)) []) pp hn
      rw [childCountAt, childCountAt, hm', hn]
      simp [hlen hne]
    · rw [happ]
      obtain ⟨ch, hch, _⟩ := @mem_xpathPaths root psegs p'
        (by rw [hpm]; simp [hp'])
      obtain ⟨n, hn⟩ := getAt_of_chainAt hch
      obtain ⟨m', hm', _, htext, _, _⟩ :=
        getAt_appendAt_preserved
          (XTree.node (lastSegment r.xpath) (some (pyStr pv)) []) pp hn
      rw [textAt, textAt, hm', hn]
      simp [htext]

/-- Witness for C7: a document holding two `WorkSite/WorkSiteName`
nodes — the engine updates the text of the first only; and a document
holding two parents but no target — the creation lands under the first
parent only. -/
theorem first_match_only_witness :
    apply_xml_rule
        (XTree.node "Root" Option.none
          [XTree.node "WorkSite" Option.none
            [XTree.node "WorkSiteName" (some "a") []],
           XTree.node "WorkSite" Option.none
            [XTree.node "WorkSiteName" (some "b") []]])
        { name := "worksite_conditional", xpath := "//WorkSite/WorkSiteName"
        , source_field := "centre_analyse"
        , condition := some "site_not_gemenos"
        , parent_xpath := some "//WorkSite" }
        [("centreAnalyse", PyVal.str "1FRA")] =
      (setTextAt "1FRA" [0, 0]
        (XTree.node "Root" Option.none
          [XTree.node "WorkSite" Option.none
            [XTree.node "WorkSiteName" (some "a") []],
           XTree.node "WorkSite" Option.none
            [XTree.node "WorkSiteName" (some "b") []]]),
        Outcome.updated "1FRA") ∧
    textAt [1, 0]
        (apply_xml_rule
          (XTree.node "Root" Option.none
            [XTree.node "WorkSite" Option.none
              [XTree.node "WorkSiteName" (some "a") []],
             XTree.node "WorkSite" Option.none
              [XTree.node "WorkSiteName" (some "b") []]])
          { name := "worksite_conditional", xpath := "//WorkSite/WorkSiteName"
          , source_field := "centre_analyse"
          , condition := some "site_not_gemenos"
          , parent_xpath := some "//WorkSite" }
          [("centreAnalyse", PyVal.str "1FRA")]).1 = some (some "b") := by
  have h := (@first_match_only
    (XTree.node "Root" Option.none
      [XTree.node "WorkSite" Option.none
        [XTree.node "WorkSiteName" (some "a") []],
       XTree.node "WorkSite" Option.none
        [XTree.node "WorkSiteName" (some "b") []]])
    { name := "worksite_conditional", xpath := "//WorkSite/WorkSiteName"
    , source_field := "centre_analyse"
    , condition := some "site_not_gemenos"
    , parent_xpath := some "//WorkSite" }
    [("centreAnalyse", PyVal.str "1FRA")]
    (PyVal.str "1FRA") ["WorkSite", "WorkSiteName"]
    rfl (by decide) (by decide)).1 [0, 0] [[1, 0]] (by decide)
  refine ⟨h.1, ?_⟩
  have h2 := (h.2 [1, 0] (by decide)).2
  rw [h2]
  decide

/-! ### Claim C8 -/

/-- C8, as stated, is FALSE at the byte level: the engine re-serializes
the parsed tree with `pretty_print=True`, so even an invocation that
changes NOTHING (empty fact dict, every rule skipped) returns text that
differs from the input bytes.  The input `"<R></R>"` parses to the
empty `R` element, and the output is `"<R/>\n"`. -/
theorem reserialization_not_byte_identical :
    correct_xml_file "<R></R>" (some (XTree.node "R" Option.none []))
        [] xml_rules = ("<R/>\n", []) ∧
    "<R/>\n" ≠ "<R></R>" := by
  refine ⟨by decide, by decide⟩

/-- C8 (amended), tree-level frame property: every node of the parsed
input document survives the whole rule loop at its original path with
its original tag, child lists only ever grow (children are appended,
never removed or reordered — original children keep their indices), and
any node whose text differs after the run matches some rule's parsed
target locator.  (Byte-level identity of the serialization does not
hold: the output is the pretty-printed re-serialization of this tree.) -/
theorem engine_frame_property (rules : List Rule) (d : XTree)
    (data : Dict) :
    (∀ q m, getAt q d = some m →
      ∃ m', getAt q (run_rules data d rules).1 = some m' ∧
        m'.tag = m.tag ∧ m.children.length ≤ m'.children.length) ∧
    (∀ q m m', getAt q d = some m →
      getAt q (run_rules data d rules).1 = some m' →
      m'.text ≠ m.text →
      ∃ r ∈ rules, ∃ segs, parseXPath r.xpath = some segs ∧
        ∃ ch, chainAt q d = some ch ∧ segs.isSuffixOf ch = true) := by
  induction rules generalizing d with
  | nil =>
    rw [run_rules_nil]
    refine ⟨fun q m hm => ⟨m, hm, rfl, le_refl _⟩, ?_⟩
    intro q m m' hm hm' hne
    rw [hm] at hm'
    exact absurd (congrArg XTree.text (Option.some_inj.mp hm')).symm hne
  | cons r rs ih =>
    rw [run_rules_cons]
    rcases run_rule_effect d r data with heff |
      ⟨segs0, q0, qs0, hp0, hm0, heff⟩ |
      ⟨ps0, psegs0, pp, pps, hps0, hpp0, hpm0, heff⟩
    · rw [heff]
      refine ⟨(ih d).1, ?_⟩
      intro q m m' hm hm' hne
      obtain ⟨r', hr', rest⟩ := (ih d).2 q m m' hm hm' hne
      exact ⟨r', by simp [hr'], rest⟩
    · rw [heff]
      constructor
      · intro q m hm
        obtain ⟨m1, hm1, htag1, hch1, _⟩ :=
          getAt_setTextAt_preserved (valStr r data) q0 hm
        obtain ⟨m', hm', htag', hle⟩ :=
          (ih (setTextAt (valStr r data) q0 d)).1 q m1 hm1
        exact ⟨m', hm', by rw [htag', htag1], by rw [← hch1]; exact hle⟩
      · intro q m m' hm hm' hne
        by_cases hqq : q = q0
        · subst hqq
          obtain ⟨ch, hch, hsuf⟩ := @mem_xpathPaths d segs0 q
            (by rw [hm0]; simp)
          exact ⟨r, by simp, segs0, hp0, ch, hch, hsuf⟩
        · obtain ⟨m1, hm1, _, _, htext1⟩ :=
            getAt_setTextAt_preserved (valStr r data) q0 hm
          rw [if_neg hqq] at htext1
          have hne1 : m'.text ≠ m1.text := by rw [htext1]; exact hne
          obtain ⟨r', hr', segs, hpr, ch, hch, hsuf⟩ :=
            (ih (setTextAt (valStr r data) q0 d)).2 q m1 m' hm1 hm' hne1
          refine ⟨r', by simp [hr'], segs, hpr, ch, ?_, hsuf⟩
          rw [← hch, chainAt_setTextAt]
    · rw [heff]
      constructor
      · intro q m hm
        obtain ⟨m1, hm1, htag1, _, hchq, hchne⟩ :=
          getAt_appendAt_preserved
            (XTree.node (leafTag r) (some (valStr r data)) []) pp hm
        have hle1 : m.children.length ≤ m1.children.length := by
          by_cases hqq : q = pp
          · rw [hchq hqq]; simp
          · rw [hchne hqq]
        obtain ⟨m', hm', htag', hle⟩ :=
          (ih (appendAt (XTree.node (leafTag r) (some (valStr r data)) [])
            pp d)).1 q m1 hm1
        exact ⟨m', hm', by rw [htag', htag1], le_trans hle1 hle⟩
      · intro q m m' hm hm' hne
        obtain ⟨m1, hm1, _, htext1, _, _⟩ :=
          getAt_appendAt_preserved
            (XTree.node (leafTag r) (some (valStr r data)) []) pp hm
        have hne1 : m'.text ≠ m1.text := by rw [htext1]; exact hne
        obtain ⟨r', hr', segs, hpr, ch, hch, hsuf⟩ :=
          (ih (appendAt (XTree.node (leafTag r) (some (valStr r data)) [])
            pp d)).2 q m1 m' hm1 hm' hne1
        refine ⟨r', by simp [hr'], segs, hpr, ch, ?_, hsuf⟩
        rw [← hch, chainAt_appendAt _ _ _ _ (by rw [hm]; rfl)]

/-- Witness for C8 (amended): running the built-in rules with the order
number on a document holding `WorkSite/WorkSiteName` — the root
persists with its tag, and the one node whose text changed
(`WorkSiteName`, from `"a"` to `"1FRA"`) matches the
`worksite_conditional` rule's target locator. -/
theorem engine_frame_property_witness :
    (∃ m', getAt []
        (run_rules
          [("centreAnalyse", PyVal.str "1FRA"),
           ("siteNotGemenos", PyVal.bool true)]
          (XTree.node "Root" Option.none
            [XTree.node "WorkSite" Option.none
              [XTree.node "WorkSiteName" (some "a") []]])
          xml_rules).1 = some m' ∧
      m'.tag = "Root") ∧
    (∃ r ∈ xml_rules, ∃ segs, parseXPath r.xpath = some segs ∧
      ∃ ch, chainAt [0, 0]
        (XTree.node "Root" Option.none
          [XTree.node "WorkSite" Option.none
            [XTree.node "WorkSiteName" (some "a") []]]) = some ch ∧
      segs.isSuffixOf ch = true) := by
  constructor
  · obtain ⟨m', hm', htag, _⟩ :=
      (engine_frame_property xml_rules
        (XTree.node "Root" Option.none
          [XTree.node "WorkSite" Option.none
            [XTree.node "WorkSiteName" (some "a") []]])
        [("centreAnalyse", PyVal.str "1FRA"),
         ("siteNotGemenos", PyVal.bool true)]).1 []
        (XTree.node "Root" Option.none
          [XTree.node "WorkSite" Option.none
            [XTree.node "WorkSiteName" (some "a") []]]) rfl
    exact ⟨m', hm', htag⟩
  · exact (engine_frame_property xml_rules
      (XTree.node "Root" Option.none
        [XTree.node "WorkSite" Option.none
          [XTree.node "WorkSiteName" (some "a") []]])
      [("centreAnalyse", PyVal.str "1FRA"),
       ("siteNotGemenos", PyVal.bool true)]).2 [0, 0]
      (XTree.node "WorkSiteName" (some "a") [])
      (XTree.node "WorkSiteName" (some "1FRA") [])
      (by decide) (by decide) (by decide)
